import Mathlib

/-!
# Verification of the SQL visualization backend core

A shallow embedding, in Lean 4, of the SQL statement decomposition and
execution-order visualization engine of the `visualizer-backend` repository:

* `src/src/services/sql-parser.service.ts` — `SQLParserService`
  (`parseExecutionOrder`, `parseCreateTable`, `parseColumnDefinition`,
  `splitColumnDefinitions`, `detectStatementType`, `normalizeQuery`);
* `src/src/config/database.ts` — `SQLExecutionService`
  (`visualizeQuery` guard, `splitStatements`, `splitBySemicolon`,
  `splitByNewline`);
* the SQL visualization service — `SQLVisualizationService`
  (`generateDataFlow`, `createDataFlowStep`, `applyWhereFilter`,
  `applyHavingFilter`, `evaluateSimpleCondition`, `resolveSelectedColumns`,
  `projectColumns`, `applyDistinct`, `applyOrderBy`, `applyLimit`,
  `applyOffset`);
* `src/src/utils/errors.ts` — the error classes.

The TypeScript source manipulates JavaScript strings and regular
expressions.  Each regular expression used by the source is embedded as a
hand-written matcher with the same backtracking semantics (leftmost match,
greedy/lazy quantifiers as written); each such definition carries a doc
comment quoting the regex it embeds.  JavaScript numbers are modelled as
`Rat` (exact rationals; the inputs exercised here are integers, and NaN is
modelled as `none` of `Option Rat`).  Strings are processed as `List Char`.
-/

namespace SQLViz

/-! ## JavaScript string primitives -/

/-- JavaScript `\s` (whitespace) character class, as used by the source's
regexes and `String.prototype.trim`. -/
def isWS (c : Char) : Bool := c.isWhitespace

/-- JavaScript `\w` (word) character class: `[A-Za-z0-9_]`. -/
def isWordChar (c : Char) : Bool := c.isAlpha || c.isDigit || c = '_'

/-- JavaScript `\d` character class. -/
def isDigitChar (c : Char) : Bool := c.isDigit

/-- Case-insensitive matching of a regex literal, as the `i` flag does:
the input character agrees with the pattern character up to ASCII case. -/
def ciEq (pat c : Char) : Bool := pat.toUpper = c.toUpper

/-- Match a literal (case-insensitively) at the head of the input,
returning the rest on success. -/
def matchLitCI : List Char → List Char → Option (List Char)
  | [], cs => some cs
  | _ :: _, [] => none
  | p :: ps, c :: cs => if ciEq p c then matchLitCI ps cs else none

/-- Length of the maximal prefix satisfying `p` (a greedy character-class
run such as `\s*` or `\w+`). -/
def runLen (p : Char → Bool) : List Char → Nat
  | [] => 0
  | c :: cs => if p c then runLen p cs + 1 else 0

/-- JavaScript `\b`: a word boundary sits between the previous character
(`none` at the start of the input) and the current position. -/
def isBoundary (prev : Option Char) (cur : Option Char) : Bool :=
  (prev.elim false isWordChar) != (cur.elim false isWordChar)

/-- Trim (JavaScript `String.prototype.trim`) on character lists. -/
def listTrim (cs : List Char) : List Char :=
  (cs.dropWhile isWS).reverse.dropWhile isWS |>.reverse

/-- `String.prototype.trim`. -/
def jsTrim (s : String) : String := ⟨listTrim s.data⟩

/-- Uppercase a character list (JavaScript `toUpperCase`, ASCII). -/
def listUpper (cs : List Char) : List Char := cs.map Char.toUpper

/-- JavaScript `String.prototype.includes` (substring test): the needle
occurs as an exact prefix of some suffix of the haystack. -/
def containsSub (needle : List Char) : List Char → Bool
  | [] => needle.isEmpty
  | c :: cs => needle.isPrefixOf (c :: cs) || containsSub needle cs

/-- `normalizeQuery` of `SQLParserService`: replace every whitespace run
by a single space (`.replace(/\s+/g, ' ')`; the subsequent
`.replace(/\n/g, ' ')` is then a no-op).  The flag records whether the
previous character was whitespace, collapsing each maximal run. -/
def normalizeChars : Bool → List Char → List Char
  | _, [] => []
  | prevWS, c :: cs =>
    if isWS c then
      if prevWS then normalizeChars true cs else ' ' :: normalizeChars true cs
    else c :: normalizeChars false cs

/-- `SQLParserService.normalizeQuery`: collapse whitespace, then trim. -/
def normalizeQuery (s : String) : String := ⟨listTrim (normalizeChars false s.data)⟩

/-- JavaScript `String.prototype.startsWith`. -/
def startsWithLit (lit cs : List Char) : Bool := lit.isPrefixOf cs

/-! ## Error model (`src/src/utils/errors.ts`)

`AppError` carries `message`, `statusCode`, `code`; `SQLParseError`
additionally carries the offending `query` (`ValidationError`'s optional
`details` argument is never passed at the call sites modelled here, so it
is modelled as absent). -/

structure ErrModel where
  message : String
  statusCode : Nat
  code : String
  query : Option String
deriving Repr, DecidableEq

/-- `new ValidationError(message)`. -/
def validationError (m : String) : ErrModel := ⟨m, 400, "VALIDATION_ERROR", none⟩

/-- `new SQLParseError(message, query)`. -/
def sqlParseError (m q : String) : ErrModel := ⟨m, 400, "SQL_PARSE_ERROR", some q⟩

/-- `new SQLExecutionError(message)`. -/
def sqlExecutionError (m : String) : ErrModel := ⟨m, 400, "SQL_EXECUTION_ERROR", none⟩

/-! ## `SQLParserService.detectStatementType` -/

/-- `detectStatementType`: normalize, uppercase, trim, then test leading
keywords in the source's order. -/
def detectStatementType (query : String) : String :=
  let n := listTrim (listUpper (normalizeQuery query).data)
  if startsWithLit "SELECT".data n then "SELECT"
  else if startsWithLit "INSERT".data n then "INSERT"
  else if startsWithLit "UPDATE".data n then "UPDATE"
  else if startsWithLit "DELETE".data n then "DELETE"
  else if startsWithLit "CREATE TABLE".data n then "CREATE TABLE"
  else if startsWithLit "DROP TABLE".data n then "DROP TABLE"
  else if startsWithLit "ALTER TABLE".data n then "ALTER TABLE"
  else if startsWithLit "CREATE INDEX".data n then "CREATE INDEX"
  else "UNKNOWN"

/-! ## `SQLExecutionService.visualizeQuery` guard (`database.ts`)

The public visualize operation first rejects an empty query, then rejects
any statement whose detected type is not `SELECT`; only afterwards does it
delegate to `SQLVisualizationService.visualizeQuery` (parsing and
simulation).  `visualizeGate` returns `some error` exactly when the guard
rejects, and `none` when control reaches the visualization service. -/
def visualizeGate (query : String) : Option ErrModel :=
  if (jsTrim query) = "" then some (validationError "Query is required")
  else if detectStatementType query ≠ "SELECT" then
    some (validationError "Query visualization only supports SELECT statements")
  else none

/-! ## Execution steps (`src/src/types/index.ts`) -/

/-- `ExecutionStepType`: the closed step enumeration. -/
inductive StepType where
  | FROM | JOIN | WHERE | GROUP_BY | HAVING | SELECT | DISTINCT | ORDER_BY | LIMIT | OFFSET
deriving Repr, DecidableEq

/-- `ExecutionStep`. -/
structure ExecutionStep where
  order : Nat
  type : StepType
  clause : String
  description : String
deriving Repr, DecidableEq

/-! ## Clause matchers of `parseExecutionOrder`

Each definition embeds one regular expression from
`sql-parser.service.ts`, with JavaScript leftmost-match and
greedy/lazy backtracking semantics. -/

/-- The negated character class `[^WHERE|JOIN|GROUP|ORDER|HAVING|LIMIT|;]`
of the `FROM`, `JOIN` and `parseSelectQuery` join regexes: TypeScript
wrote an alternation inside brackets, which denotes the *set of the
listed characters* (case-insensitively, flag `i`).  `fromStopClass c`
is true when `c` is in that set. -/
def fromStopClass (c : Char) : Bool :=
  "WHERE|JOIN|GROUP|ORDER|HAVING|LIMIT|;".data.any (fun d => ciEq d c)

/-- Body of `/\bFROM\s+([^WHERE|JOIN|GROUP|ORDER|HAVING|LIMIT|;]+)/i` at
one candidate position (the caller has checked the word boundary): match
`FROM`, then `\s+` (greedy, backtracking one whitespace character into
the class run when the character after the run is in the stop class,
which is possible only when the run has length ≥ 2), then the capture is
the maximal run of characters outside the stop class. -/
def fromMatchAt (cs : List Char) : Option (List Char) :=
  match matchLitCI "FROM".data cs with
  | none => none
  | some rest =>
    let w := runLen isWS rest
    if w = 0 then none
    else
      let afterWS := rest.drop w
      if afterWS.head?.elim false (fun c => !fromStopClass c) then
        some (afterWS.takeWhile (fun c => !fromStopClass c))
      else if 2 ≤ w then
        some ((rest.drop (w - 1)).takeWhile (fun c => !fromStopClass c))
      else none

/-- Leftmost-match scan for the `FROM` regex: try every position with a
word boundary (`\b`), keeping the previous character as boundary
context. -/
def scanFrom : Option Char → List Char → Option (List Char)
  | _, [] => none
  | prev, c :: cs =>
    match (if isBoundary prev (some c) then fromMatchAt (c :: cs) else none) with
    | some cap => some cap
    | none => scanFrom (some c) cs

/-- Lookahead `\s+LIT₁\s+LIT₂…`: one-or-more whitespace, then the next
literal, repeated. -/
def lookWsLits : List (List Char) → List Char → Bool
  | [], _ => true
  | lit :: rest, cs =>
    let w := runLen isWS cs
    if w = 0 then false
    else
      match matchLitCI lit (cs.drop w) with
      | none => false
      | some cs' => lookWsLits rest cs'

/-- Lookahead `\s*;` or `\s*$`: after the whitespace run, either the end
of input or a semicolon (whitespace characters are never `;`, so the
greedy run needs no backtracking here). -/
def lookSemiEnd (cs : List Char) : Bool :=
  let rest := cs.drop (runLen isWS cs)
  rest.isEmpty || rest.head?.elim false (· = ';')

/-- Lookahead of the `WHERE` regex:
`(?=\s+GROUP\s+BY|\s+HAVING|\s+ORDER\s+BY|\s+LIMIT|\s*;|\s*$)`. -/
def whereLook (cs : List Char) : Bool :=
  lookWsLits ["GROUP".data, "BY".data] cs || lookWsLits ["HAVING".data] cs ||
  lookWsLits ["ORDER".data, "BY".data] cs || lookWsLits ["LIMIT".data] cs ||
  lookSemiEnd cs

/-- Lookahead of the `GROUP BY` regex. -/
def groupByLook (cs : List Char) : Bool :=
  lookWsLits ["HAVING".data] cs || lookWsLits ["ORDER".data, "BY".data] cs ||
  lookWsLits ["LIMIT".data] cs || lookSemiEnd cs

/-- Lookahead of the `HAVING` regex. -/
def havingLook (cs : List Char) : Bool :=
  lookWsLits ["ORDER".data, "BY".data] cs || lookWsLits ["LIMIT".data] cs || lookSemiEnd cs

/-- Lookahead of the `ORDER BY` regex. -/
def orderByLook (cs : List Char) : Bool :=
  lookWsLits ["LIMIT".data] cs || lookSemiEnd cs

/-- Lazy `(.+?)` up to a satisfied lookahead: the shortest nonempty
prefix of non-newline characters whose remainder satisfies `look`. -/
def lazyFrom (look : List Char → Bool) : List Char → Option (List Char)
  | [] => none
  | c :: cs =>
    if c = '\n' then none
    else if look cs then some [c]
    else
      match lazyFrom look cs with
      | some cap => some (c :: cap)
      | none => none

/-- `\s+(.+?)(?=look)`: the leading `\s+` is greedy and backtracks
(longest whitespace run first, down to one character); the capture is
lazy. -/
def lazyCapture (look : List Char → Bool) (cs : List Char) : Option (List Char) :=
  let w := runLen isWS cs
  if w = 0 then none
  else (List.range w).findSome? fun i => lazyFrom look (cs.drop (w - i))

/-- Match a keyword sequence such as `GROUP\s+BY` (each keyword after the
first preceded by `\s+`), returning the rest. -/
def matchKws : List (List Char) → List Char → Option (List Char)
  | [], cs => some cs
  | lit :: rest, cs =>
    match matchLitCI lit cs with
    | none => none
    | some cs' =>
      if rest.isEmpty then some cs'
      else
        let w := runLen isWS cs'
        if w = 0 then none else matchKws rest (cs'.drop w)

/-- Leftmost-match scan for a clause regex
`\bKW…\s+(.+?)(?=look)` (used for `WHERE`, `GROUP BY`, `HAVING`,
`ORDER BY`).  If the keywords match at a boundary but the capture fails,
the scan continues at the next position, as a regex engine does. -/
def scanClause (kws : List (List Char)) (look : List Char → Bool) :
    Option Char → List Char → Option (List Char)
  | _, [] => none
  | prev, c :: cs =>
    let attempt :=
      if isBoundary prev (some c) then
        match matchKws kws (c :: cs) with
        | some rest => lazyCapture look rest
        | none => none
      else none
    match attempt with
    | some cap => some cap
    | none => scanClause kws look (some c) cs

/-- `/^SELECT\s+(DISTINCT\s+)?(.+?)\s+FROM/i`, anchored at the start:
returns (whether the optional `DISTINCT` group matched, the projection
capture).  Backtracking order: outer `\s+` longest first; the optional
group greedily tries `DISTINCT\s+` (its own `\s+` longest first) before
omitting it; the capture is lazy, ending where `\s+FROM` matches. -/
def selectProjMatch (cs : List Char) : Option (Bool × List Char) :=
  match matchLitCI "SELECT".data cs with
  | none => none
  | some rest =>
    let w := runLen isWS rest
    if w = 0 then none
    else
      (List.range w).findSome? fun i =>
        let rest1 := rest.drop (w - i)
        let withDistinct : Option (Bool × List Char) :=
          match matchLitCI "DISTINCT".data rest1 with
          | some r2 =>
            let w2 := runLen isWS r2
            if w2 = 0 then none
            else
              (List.range w2).findSome? fun j =>
                (lazyFrom (lookWsLits ["FROM".data]) (r2.drop (w2 - j))).map (true, ·)
          | none => none
        withDistinct.orElse fun _ =>
          (lazyFrom (lookWsLits ["FROM".data]) rest1).map (false, ·)

/-- Leftmost-match scan for `/\bKW\s+(\d+)/i` (`LIMIT`, `OFFSET`): after
the keyword at a word boundary, greedy `\s+` then a maximal nonempty
digit run (whitespace is never a digit, so no backtracking arises). -/
def scanNumCapture (kw : List Char) : Option Char → List Char → Option (List Char)
  | _, [] => none
  | prev, c :: cs =>
    let attempt :=
      if isBoundary prev (some c) then
        match matchLitCI kw (c :: cs) with
        | none => none
        | some rest =>
          let w := runLen isWS rest
          if w = 0 then none
          else
            let digits := (rest.drop w).takeWhile isDigitChar
            if digits.isEmpty then none else some digits
      else none
    match attempt with
    | some cap => some cap
    | none => scanNumCapture kw (some c) cs

/-! ### The `JOIN` regex
`/\b((?:INNER|LEFT|RIGHT|FULL|CROSS)?\s*JOIN\s+\w+(?:\s+(?:AS\s+)?\w+)?(?:\s+ON\s+[^WHERE|JOIN|GROUP|ORDER|HAVING|LIMIT|;]+)?)/gi` -/

/-- The optional alias group `(?:\s+(?:AS\s+)?\w+)?`: greedy, trying
`AS\s+` before omitting it; if the whole group cannot match, nothing is
consumed. -/
def joinAliasOpt (cs : List Char) : List Char :=
  let w := runLen isWS cs
  if w = 0 then cs
  else
    let r := cs.drop w
    let withAS : Option (List Char) :=
      match matchLitCI "AS".data r with
      | some ra =>
        let wa := runLen isWS ra
        if wa = 0 then none
        else
          let rb := ra.drop wa
          let t := runLen isWordChar rb
          if t = 0 then none else some (rb.drop t)
      | none => none
    match withAS with
    | some rest => rest
    | none =>
      let t := runLen isWordChar r
      if t = 0 then cs else r.drop t

/-- The optional `ON` group `(?:\s+ON\s+[^…]+)?`, with the same one-step
whitespace backtracking into the class run as the `FROM` regex; if the
group cannot match, nothing is consumed. -/
def joinOnOpt (cs : List Char) : List Char :=
  let w := runLen isWS cs
  if w = 0 then cs
  else
    match matchLitCI "ON".data (cs.drop w) with
    | none => cs
    | some r2 =>
      let w2 := runLen isWS r2
      if w2 = 0 then cs
      else
        let r3 := r2.drop w2
        let t := runLen (fun c => !fromStopClass c) r3
        if t ≠ 0 then r3.drop t
        else if 2 ≤ w2 then
          let start := r2.drop (w2 - 1)
          start.drop (runLen (fun c => !fromStopClass c) start)
        else cs

/-- After the optional join kind: `\s*JOIN\s+\w+` then the optional alias
and `ON` groups; returns the unconsumed rest. -/
def joinAfterKind (rest : List Char) : Option (List Char) :=
  let r1 := rest.drop (runLen isWS rest)
  match matchLitCI "JOIN".data r1 with
  | none => none
  | some r2 =>
    let w := runLen isWS r2
    if w = 0 then none
    else
      let r3 := r2.drop w
      let t := runLen isWordChar r3
      if t = 0 then none
      else some (joinOnOpt (joinAliasOpt (r3.drop t)))

/-- One attempt of the join regex at the current position: the optional
kind alternation is tried in source order (`INNER`, `LEFT`, `RIGHT`,
`FULL`, `CROSS`, then empty); returns the consumed length. -/
def joinBodyAt (cs : List Char) : Option Nat :=
  let kinds : List (List Char) :=
    ["INNER".data, "LEFT".data, "RIGHT".data, "FULL".data, "CROSS".data]
  let res :=
    (kinds.findSome? fun k => (matchLitCI k cs).bind joinAfterKind).orElse
      fun _ => joinAfterKind cs
  res.map fun rest => cs.length - rest.length

/-- Global (`g` flag) scan for the join regex: after each match, the
search resumes at the end of the matched text.  The fuel starts at
`length + 1`; every step consumes at least one character, so the
zero-fuel branch is unreachable. -/
def joinScanAux : Nat → Option Char → List Char → List String
  | 0, _, _ => []
  | _, _, [] => []
  | fuel + 1, prev, c :: cs =>
    match (if isBoundary prev (some c) then joinBodyAt (c :: cs) else none) with
    | some n =>
      let matched := (c :: cs).take n
      ⟨matched⟩ :: joinScanAux fuel matched.getLast? ((c :: cs).drop n)
    | none => joinScanAux fuel (some c) cs

/-- `normalizedQuery.match(/\b((?:INNER|…)?\s*JOIN…)/gi)`, as the list of
matched (= captured) clauses. -/
def joinScan (cs : List Char) : List String := joinScanAux (cs.length + 1) none cs

/-! ## `SQLParserService.parseExecutionOrder` -/

/-- `steps.push({order: order++, type, clause, description})`: append one
step and advance the order counter. -/
def emit (st : List ExecutionStep × Nat) (ty : StepType) (clause desc : String) :
    List ExecutionStep × Nat :=
  (st.1 ++ [⟨st.2, ty, clause, desc⟩], st.2 + 1)

/-- The `// Extract FROM clause` block of `parseExecutionOrder`. -/
def stepFrom (nq : List Char) (st : List ExecutionStep × Nat) : List ExecutionStep × Nat :=
  match scanFrom none nq with
  | some cap => emit st .FROM ("FROM " ++ String.mk (listTrim cap)) "Load data from table(s)"
  | none => st

/-- The `// Extract JOIN clauses` block: one step per global match. -/
def stepJoins (nq : List Char) (st : List ExecutionStep × Nat) : List ExecutionStep × Nat :=
  (joinScan nq).foldl (fun st j => emit st .JOIN (jsTrim j) "Combine rows from joined tables") st

/-- The `// Extract WHERE clause` block. -/
def stepWhere (nq : List Char) (st : List ExecutionStep × Nat) : List ExecutionStep × Nat :=
  match scanClause ["WHERE".data] whereLook none nq with
  | some cap =>
    emit st .WHERE ("WHERE " ++ String.mk (listTrim cap)) "Filter rows based on conditions"
  | none => st

/-- The `// Extract GROUP BY clause` block. -/
def stepGroupBy (nq : List Char) (st : List ExecutionStep × Nat) : List ExecutionStep × Nat :=
  match scanClause ["GROUP".data, "BY".data] groupByLook none nq with
  | some cap =>
    emit st .GROUP_BY ("GROUP BY " ++ String.mk (listTrim cap)) "Group rows by specified columns"
  | none => st

/-- The `// Extract HAVING clause` block. -/
def stepHaving (nq : List Char) (st : List ExecutionStep × Nat) : List ExecutionStep × Nat :=
  match scanClause ["HAVING".data] havingLook none nq with
  | some cap =>
    emit st .HAVING ("HAVING " ++ String.mk (listTrim cap))
      "Filter groups based on aggregate conditions"
  | none => st

/-- The `// Extract SELECT clause` block, including the nested
`DISTINCT` check. -/
def stepSelect (nq : List Char) (st : List ExecutionStep × Nat) : List ExecutionStep × Nat :=
  match selectProjMatch nq with
  | some (d, cap) =>
    let st := emit st .SELECT ("SELECT " ++ String.mk (listTrim cap)) "Select specified columns"
    if d then emit st .DISTINCT "DISTINCT" "Remove duplicate rows" else st
  | none => st

/-- The `// Extract ORDER BY clause` block. -/
def stepOrderBy (nq : List Char) (st : List ExecutionStep × Nat) : List ExecutionStep × Nat :=
  match scanClause ["ORDER".data, "BY".data] orderByLook none nq with
  | some cap => emit st .ORDER_BY ("ORDER BY " ++ String.mk (listTrim cap)) "Sort result rows"
  | none => st

/-- The `// Extract LIMIT clause` block. -/
def stepLimit (nq : List Char) (st : List ExecutionStep × Nat) : List ExecutionStep × Nat :=
  match scanNumCapture "LIMIT".data none nq with
  | some ds =>
    emit st .LIMIT ("LIMIT " ++ String.mk ds) ("Limit results to " ++ String.mk ds ++ " rows")
  | none => st

/-- The `// Extract OFFSET clause` block. -/
def stepOffset (nq : List Char) (st : List ExecutionStep × Nat) : List ExecutionStep × Nat :=
  match scanNumCapture "OFFSET".data none nq with
  | some ds =>
    emit st .OFFSET ("OFFSET " ++ String.mk ds) ("Skip first " ++ String.mk ds ++ " rows")
  | none => st

/-- The extraction pipeline of `parseExecutionOrder`, in the source's
emission order, starting from the empty step list and order counter 1. -/
def runPipeline (nq : List Char) : List ExecutionStep × Nat :=
  stepOffset nq (stepLimit nq (stepOrderBy nq (stepSelect nq (stepHaving nq
    (stepGroupBy nq (stepWhere nq (stepJoins nq (stepFrom nq ([], 1)))))))))

/-- `SQLParserService.parseExecutionOrder`: reject non-`SELECT` text,
then extract the clauses in the source's fixed emission order (`FROM`,
`JOIN`s, `WHERE`, `GROUP BY`, `HAVING`, `SELECT` [+ `DISTINCT`],
`ORDER BY`, `LIMIT`, `OFFSET`), each appended with the running order
counter (`order++` starting at 1); error when no step was extracted. -/
def parseExecutionOrder (query : String) : Except ErrModel (List ExecutionStep) :=
  let nq := (normalizeQuery query).data
  if ¬ startsWithLit "SELECT".data (listTrim (listUpper nq)) then
    .error (sqlParseError "Execution order visualization only supports SELECT queries" query)
  else
    let st := runPipeline nq
    if st.1.isEmpty then .error (sqlParseError "Could not parse query execution steps" query)
    else .ok st.1

/-! ## JavaScript values and coercions

Row data is `Record<string, unknown>`; the values observed by the
condition evaluator are numbers, strings, `null`, and `undefined` (for
an absent key).  JavaScript numbers are modelled as exact fractions
(numerator and positive denominator, not necessarily reduced, compared
by cross-multiplication); `NaN` arises only through `Number(...)`
coercion and is modelled as `none : Option JsNum`. -/

/-- An exact (finite) JavaScript number: `num / den` with `den ≥ 1`.
The representation is not reduced; all semantic operations compare by
cross-multiplication, so only plain `Int`/`Nat` arithmetic occurs. -/
structure JsNum where
  num : Int
  den : Nat
deriving Repr, DecidableEq

/-- Embed an integer. -/
def JsNum.ofInt (i : Int) : JsNum := ⟨i, 1⟩

/-- Semantic equality `a.num / a.den = b.num / b.den`. -/
def jsNumEq (a b : JsNum) : Bool := a.num * b.den = b.num * a.den

/-- Semantic strict order `a.num / a.den < b.num / b.den`
(denominators are positive for every constructed value). -/
def jsNumLt (a b : JsNum) : Bool := a.num * b.den < b.num * a.den

inductive JSValue where
  | vnum (q : JsNum)
  | vstr (s : String)
  | vnull
  | vundefined
deriving Repr, DecidableEq

/-- Shorthand for an integer-valued row number. -/
def JSValue.int (i : Int) : JSValue := .vnum (JsNum.ofInt i)

/-- A row's `data` mapping. -/
abbrev RowData := List (String × JSValue)

/-- `data[column]`: property lookup; an absent key reads `undefined`. -/
def getProp (data : RowData) (k : String) : JSValue :=
  match data.find? (fun p => p.1 = k) with
  | some p => p.2
  | none => .vundefined

/-- Decimal digits of a natural number (structural, fuel = value). -/
def natDigitsAux : Nat → Nat → List Char
  | 0, _ => []
  | _ + 1, 0 => []
  | fuel + 1, n => natDigitsAux fuel (n / 10) ++ [Char.ofNat (48 + n % 10)]

/-- Decimal representation of a natural number. -/
def natToStr (n : Nat) : String := if n = 0 then "0" else ⟨natDigitsAux (n + 1) n⟩

/-- Decimal representation of an integer. -/
def intToStr (i : Int) : String :=
  if i < 0 then "-" ++ natToStr i.natAbs else natToStr i.natAbs

/-- Smallest `k < fuel` (counting up from `k`) such that
`num * 10^(k+1)` is divisible by `den`: the length, minus one, of the
shortest decimal expansion of the fractional part. -/
def findDecExp (q : JsNum) (k : Nat) : Nat → Option Nat
  | 0 => none
  | fuel + 1 =>
    if (q.num * (10 : Int) ^ (k + 1)) % (q.den : Int) = 0 then some k
    else findDecExp q (k + 1) fuel

/-- JavaScript number-to-string: exact for integral values; for a
non-integral value with a finite decimal expansion (every JavaScript
double has one), the shortest expansion digit string.  (A fraction
whose reduced denominator divides no power of ten lies outside the
image of the double model; such values are printed as a fraction and
never arise from the embedded constructions.) -/
def numToString (q : JsNum) : String :=
  if q.num % (q.den : Int) = 0 then intToStr (q.num / (q.den : Int))
  else
    match findDecExp q 0 1200 with
    | some k =>
      let scaled := ((q.num * (10 : Int) ^ (k + 1)) / (q.den : Int)).natAbs
      let digits := (natToStr scaled).data
      let digits := List.replicate ((k + 2) - digits.length) '0' ++ digits
      let intPart := digits.take (digits.length - (k + 1))
      let fracPart := digits.drop (digits.length - (k + 1))
      (if q.num < 0 then "-" else "") ++ ⟨intPart⟩ ++ "." ++ ⟨fracPart⟩
    | none => intToStr q.num ++ "/" ++ natToStr q.den

/-- JS `Number(string)` on the decimal-numeral fragment: whitespace is
trimmed, the empty string is `0`, an optional sign precedes integer
digits with an optional fractional part (`12`, `12.`, `.5`, `-3.25`).
Exponents and hex/binary literals are not modelled (the predicates
exercised in this code base use plain decimal numerals); `none` models
`NaN`. -/
def parseNumber (cs : List Char) : Option JsNum :=
  let t := listTrim cs
  if t.isEmpty then some (JsNum.ofInt 0)
  else
    let sign : Int := match t with
      | '-' :: _ => -1
      | _ => 1
    let t1 : List Char := match t with
      | '-' :: r => r
      | '+' :: r => r
      | r => r
    let intPart := t1.takeWhile isDigitChar
    let rest := t1.drop intPart.length
    let digitsVal (ds : List Char) : Nat := ds.foldl (fun a c => a * 10 + (c.toNat - 48)) 0
    match rest with
    | [] => if intPart.isEmpty then none else some ⟨sign * digitsVal intPart, 1⟩
    | '.' :: fr =>
      let fracPart := fr.takeWhile isDigitChar
      if ¬ (fr.drop fracPart.length).isEmpty then none
      else if intPart.isEmpty ∧ fracPart.isEmpty then none
      else some ⟨sign * (digitsVal intPart * 10 ^ fracPart.length + digitsVal fracPart),
        10 ^ fracPart.length⟩
    | _ => none

/-- JS `Number(v)` coercion (`none` = NaN). -/
def jsToNumber : JSValue → Option JsNum
  | .vnum q => some q
  | .vstr s => parseNumber s.data
  | .vnull => some (JsNum.ofInt 0)
  | .vundefined => none

/-- JS `String(v)` coercion. -/
def jsToString : JSValue → String
  | .vnum q => numToString q
  | .vstr s => s
  | .vnull => "null"
  | .vundefined => "undefined"

/-! ## `evaluateSimpleCondition` (the condition evaluator) -/

/-- One attempt of the operator regex `(\w+)\s*OP\s*(.+)` (flag `i`) at
the current position: `\w+` is greedy with backtracking (longest word
run first — this matters for the word operators `LIKE`/`IN`), the first
`\s*` is greedy (no operator starts with whitespace, so shortening it
never helps), the operator literal is matched case-insensitively, and
the second `\s*` is greedy but backs off while the lazy-irrelevant
`(.+)` (one or more non-newline characters, greedy to the end) would be
empty.  Returns (column capture, value capture). -/
def opMatchAt (op : List Char) (cs : List Char) : Option (List Char × List Char) :=
  let m := runLen isWordChar cs
  if m = 0 then none
  else
    (List.range m).findSome? fun i =>
      let k := m - i
      let rest1 := cs.drop k
      let w := runLen isWS rest1
      match matchLitCI op (rest1.drop w) with
      | none => none
      | some rest2 =>
        let w2 := runLen isWS rest2
        (List.range (w2 + 1)).findSome? fun d =>
          let v := (rest2.drop (w2 - d)).takeWhile (· ≠ '\n')
          if v.isEmpty then none else some (cs.take k, v)

/-- `condition.match(regex)`: leftmost match — every start position is
tried (the pattern is unanchored). -/
def opScanPos (op : List Char) : List Char → Option (List Char × List Char)
  | [] => none
  | c :: cs =>
    match opMatchAt op (c :: cs) with
    | some r => some r
    | none => opScanPos op cs

/-- `columnValue === Number(value)`: strict equality holds only when
the column value is a number equal to the (non-`NaN`) parsed value. -/
def strictEqNum (cv : JSValue) (n : Option JsNum) : Bool :=
  match cv, n with
  | .vnum q, some r => jsNumEq q r
  | _, _ => false

/-- Numeric comparison after `Number(...)` coercion of both sides; any
`NaN` operand yields `false` (as in JavaScript).  `a ≤ b` is `¬ b < a`
for the (total) rational order. -/
def numCompare (lt : Bool) (strict : Bool) (a b : Option JsNum) : Bool :=
  match a, b with
  | some x, some y =>
    if lt then (if strict then jsNumLt x y else !jsNumLt y x)
    else (if strict then jsNumLt y x else !jsNumLt x y)
  | _, _ => false

/-- SQL `LIKE` after `value.replace(/%/g, '.*').replace(/_/g, '.')` and
`new RegExp('^' + pattern + '$', 'i').test(str)`: `%` matches any
sequence, `_` any single character, and every other character matches
itself case-insensitively.  (A value containing further regex
metacharacters would be interpreted as regex syntax by JavaScript; the
predicates exercised here contain none.)  Structural fuel
`|pattern| + |string| + 1` is strictly more than the recursion depth. -/
def likeMatchAux : Nat → List Char → List Char → Bool
  | 0, _, _ => false
  | _ + 1, [], [] => true
  | _ + 1, [], _ :: _ => false
  | fuel + 1, '%' :: ps, cs =>
    likeMatchAux fuel ps cs ||
      (match cs with
       | [] => false
       | _ :: cs' => likeMatchAux fuel ('%' :: ps) cs')
  | fuel + 1, '_' :: ps, cs =>
    (match cs with
     | [] => false
     | _ :: cs' => likeMatchAux fuel ps cs')
  | fuel + 1, p :: ps, cs =>
    (match cs with
     | [] => false
     | c :: cs' => ciEq p c && likeMatchAux fuel ps cs')

/-- The anchored case-insensitive wildcard test of the `LIKE` branch,
as a total function: `%` matches any run, `_` any one character, and
every other pattern character only itself.  This models the
`new RegExp` test only on patterns whose remaining characters are
regex-literal; the constructor itself is modelled by
`likeRegexSource` and `regexGroupsOk` below, and can throw on the
pattern it is handed — that reachable exception is the C6
divergence: this running model stays total where the source
throws. -/
def likeMatch (ps cs : List Char) : Bool := likeMatchAux (ps.length + cs.length + 1) ps cs

/-- Quote stripping of the matched comparison value
(`evaluateSimpleCondition` lines 239-246): trim, then remove one
leading and trailing single-quote pair when both are present. -/
def stripValue (rawValue : List Char) : List Char :=
  let value0 := listTrim rawValue
  if value0.head?.elim false (· = '\'') ∧ value0.getLast?.elim false (· = '\'') then
    (value0.drop 1).dropLast
  else value0

/-- `value.replace(/%/g, ".*").replace(/_/g, ".")` of the `LIKE`
branch: `%` becomes `.*` and `_` becomes `.` (the two global replaces
do not interfere: the first introduces no `_`). -/
def likePattern (value : List Char) : List Char :=
  value.foldr (fun c acc =>
    if c = '%' then '.' :: '*' :: acc
    else if c = '_' then '.' :: acc
    else c :: acc) []

/-- The exact string the `LIKE` branch hands to the `RegExp`
constructor: `'^' + pattern + '$'`. -/
def likeRegexSource (value : List Char) : List Char :=
  '^' :: (likePattern value ++ ['$'])

/-- Scan of a regular-expression source tracking backslash escapes,
character classes and group depth: an unescaped `(` outside a class
opens a group, an unescaped `)` closes one, and `[` ... `]` spans a
class in which parentheses are literal.  The scan returns `false` when
some group is left unterminated, a `)` is unmatched, or the pattern
ends in a bare backslash — on every such pattern the JavaScript
`RegExp` constructor throws a `SyntaxError`, whatever the rest of the
pattern looks like (a necessary condition for constructor success, not
a full syntax check). -/
def regexGroupScan : Nat → Bool → Bool → List Char → Bool
  | depth, esc, _, [] => !esc && depth == 0
  | depth, true, inCls, _ :: cs => regexGroupScan depth false inCls cs
  | depth, false, inCls, c :: cs =>
    if c = '\\' then regexGroupScan depth true inCls cs
    else if inCls then
      if c = ']' then regexGroupScan depth false false cs
      else regexGroupScan depth false true cs
    else if c = '[' then regexGroupScan depth false true cs
    else if c = '(' then regexGroupScan (depth + 1) false false cs
    else if c = ')' then
      match depth with
      | 0 => false
      | d + 1 => regexGroupScan d false false cs
    else regexGroupScan depth false false cs

/-- `regexGroupsOk p = false` means `new RegExp(p)` throws. -/
def regexGroupsOk (cs : List Char) : Bool := regexGroupScan 0 false false cs

/-- The `switch (op.toUpperCase())` of `evaluateSimpleCondition`, after
a pattern match: strip single quotes from the (trimmed) value when it
is quoted, look the column up in the row, and compare.  The `IN`
operator has no `case` and falls through to `default`, returning
`true`. -/
def applyOp (data : RowData) (op : String) (column rawValue : List Char) : Bool :=
  let value : List Char := stripValue rawValue
  let cv := getProp data ⟨column⟩
  match op with
  | "=" => jsToString cv = String.mk value || strictEqNum cv (parseNumber value)
  | "!=" => !(jsToString cv = String.mk value) && !strictEqNum cv (parseNumber value)
  | "<>" => !(jsToString cv = String.mk value) && !strictEqNum cv (parseNumber value)
  | ">" => numCompare false true (jsToNumber cv) (parseNumber value)
  | "<" => numCompare true true (jsToNumber cv) (parseNumber value)
  | ">=" => numCompare false false (jsToNumber cv) (parseNumber value)
  | "<=" => numCompare true false (jsToNumber cv) (parseNumber value)
  | "LIKE" => likeMatch value (jsToString cv).data
  | _ => true

/-- The operator list of `evaluateSimpleCondition`, in source order. -/
def opsList : List String := [">=", "<=", "!=", "<>", "=", ">", "<", "LIKE", "IN"]

/-- The operator loop: the first operator whose regex matches anywhere
in the condition decides the result. -/
def opEval (data : RowData) (cond : List Char) : Option Bool :=
  opsList.findSome? fun op =>
    (opScanPos op.data cond).map fun m => applyOp data op m.1 m.2

/-- Leftmost match of the split separator `\s+LIT\s+` (`condition.split`
with `LIT` = `AND`/`OR`, case-insensitive): returns the start index and
length of the separator.  Both whitespace runs are greedy; the literal
begins with a letter and nothing follows the second run, so no
backtracking changes the result. -/
def sepAttempt (lit : List Char) (c : Char) (cs : List Char) : Option Nat :=
  if isWS c then
    match matchLitCI lit ((c :: cs).drop (runLen isWS (c :: cs))) with
    | some r =>
      if runLen isWS r = 0 then none
      else some (runLen isWS (c :: cs) + lit.length + runLen isWS r)
    | none => none
  else none

/-- Leftmost occurrence of the separator: the scan tries `sepAttempt`
at every position, returning the start index and separator length. -/
def findSepAux (lit : List Char) : List Char → Option (Nat × Nat)
  | [] => none
  | c :: cs =>
    match sepAttempt lit c cs with
    | some len => some (0, len)
    | none => (findSepAux lit cs).map (fun p => (p.1 + 1, p.2))

/-- `String.prototype.split` on the separator regex: successive
leftmost matches; structural fuel `length` is strictly more than the
number of separators. -/
def splitSepAux (lit : List Char) : Nat → List Char → List (List Char)
  | 0, cs => [cs]
  | fuel + 1, cs =>
    match findSepAux lit cs with
    | none => [cs]
    | some (i, len) => cs.take i :: splitSepAux lit fuel (cs.drop (i + len))

/-- `condition.split(/\s+AND\s+/i)` (resp. `OR`). -/
def splitSep (lit : List Char) (cs : List Char) : List (List Char) :=
  splitSepAux lit cs.length cs

/-- `evaluateSimpleCondition`, with explicit recursion fuel: the source
recurses on the strictly shorter AND/OR fragments, and the wrapper
`evaluateSimpleCondition` supplies fuel `length + 1`
(`evalCondFuel_congr` shows any fuel above the length gives the same
result, so the zero-fuel branch is unreachable).  Control order is the
source's: the operator loop first, then the AND split, then the OR
split, then fail-open `true`. -/
def evalCondFuel (data : RowData) : Nat → List Char → Bool
  | 0, _ => true
  | fuel + 1, cond =>
    match opEval data cond with
    | some b => b
    | none =>
      if containsSub " AND ".data (listUpper cond) then
        (splitSep "AND".data cond).all (fun p => evalCondFuel data fuel p)
      else if containsSub " OR ".data (listUpper cond) then
        (splitSep "OR".data cond).any (fun p => evalCondFuel data fuel p)
      else true

/-- `SQLVisualizationService.evaluateSimpleCondition`. -/
def evaluateSimpleCondition (data : RowData) (cond : String) : Bool :=
  evalCondFuel data (cond.data.length + 1) cond.data

/-! ## `SQLExecutionService.splitStatements` (`database.ts`)

`splitStatements` dispatches on the presence of any `;`:
semicolon-splitting with string-literal tracking, or line-based
splitting on statement-starting keywords. -/

/-- The quoted-string state update for one character: a single or
double quote not immediately preceded by a backslash either opens a
string (recording the quote character) or closes it when it matches
the opening quote. -/
def quoteStep (prev : Option Char) (c : Char) (inString : Bool) (sChar : Char) :
    Bool × Char :=
  if (c = '\'' ∨ c = '"') ∧ prev ≠ some '\\' then
    if ¬ inString then (true, c)
    else if c = sChar then (false, sChar)
    else (inString, sChar)
  else (inString, sChar)

/-- The left-to-right scan of `splitBySemicolon`: returns the trimmed
fragments pushed at each top-level (unquoted) semicolon, and the final
`current` buffer (trimmed). -/
def semiScan (prev : Option Char) (inString : Bool) (sChar : Char) (cur : List Char) :
    List Char → List String × String
  | [] => ([], ⟨listTrim cur⟩)
  | c :: rest =>
    let st := quoteStep prev c inString sChar
    if c = ';' ∧ ¬ st.1 then
      let r := semiScan (some c) st.1 st.2 [] rest
      (⟨listTrim cur⟩ :: r.1, r.2)
    else
      semiScan (some c) st.1 st.2 (cur ++ [c]) rest

/-- The number of top-level unquoted semicolons, by the same
string-literal tracking. -/
def semiCount (prev : Option Char) (inString : Bool) (sChar : Char) : List Char → Nat
  | [] => 0
  | c :: rest =>
    let st := quoteStep prev c inString sChar
    if c = ';' ∧ ¬ st.1 then semiCount (some c) st.1 st.2 rest + 1
    else semiCount (some c) st.1 st.2 rest

/-- `topLevelSemis s` counts the semicolons of `s` outside string
literals (the claim's `N`). -/
def topLevelSemis (sql : String) : Nat := semiCount none false ' ' sql.data

/-- `splitBySemicolon`: push a trimmed fragment at each top-level `;`,
push the trailing buffer when its trim is nonempty, and drop empty
fragments. -/
def splitBySemicolon (sql : String) : List String :=
  let r := semiScan none false ' ' [] sql.data
  (r.1 ++ (if r.2 ≠ "" then [r.2] else [])).filter (fun s => s.length > 0)

/-- `sql.split(/\r?\n/)`. -/
def splitLines : List Char → List (List Char)
  | [] => [[]]
  | '\r' :: '\n' :: rest => [] :: splitLines rest
  | '\n' :: rest => [] :: splitLines rest
  | c :: rest =>
    match splitLines rest with
    | l :: ls => (c :: l) :: ls
    | [] => [[c]]

/-- The statement-starter keywords of `splitByNewline`. -/
def statementStarters : List String :=
  ["SELECT", "INSERT", "UPDATE", "DELETE", "CREATE", "DROP", "ALTER", "TRUNCATE",
   "WITH", "SET", "SHOW", "DESCRIBE", "EXPLAIN", "USE", "GRANT", "REVOKE"]

/-- `/^(SELECT|INSERT|…)\b/i.test(line)`: a keyword at the start of the
line, followed by a word boundary. -/
def startsStatement (line : List Char) : Bool :=
  statementStarters.any fun kw =>
    match matchLitCI kw.data line with
    | some rest => isBoundary kw.data.getLast? rest.head?
    | none => false

/-- The line-accumulation loop of `splitByNewline`: empty lines are
skipped; a line starting with a statement keyword pushes the current
statement (when nonempty) and starts a new one; other lines are
space-joined onto the current statement. -/
def newlineGo : List Char → List (List Char) → List String
  | cur, [] => if (listTrim cur).isEmpty then [] else [⟨listTrim cur⟩]
  | cur, line :: rest =>
    let t := listTrim line
    if t.isEmpty then newlineGo cur rest
    else if startsStatement t then
      (if (listTrim cur).isEmpty then [] else [(⟨listTrim cur⟩ : String)]) ++ newlineGo t rest
    else newlineGo (cur ++ ' ' :: t) rest

/-- `splitByNewline`. -/
def splitByNewline (sql : String) : List String :=
  (newlineGo [] (splitLines sql.data)).filter (fun s => s.length > 0)

/-- `splitStatements`: semicolon format when the script contains any
`;`, otherwise line-based splitting. -/
def splitStatements (sql : String) : List String :=
  if sql.data.contains ';' then splitBySemicolon sql else splitByNewline sql

/-! ## `SQLParserService.parseCreateTable` -/

/-- `ColumnDefinition` (`src/src/types/index.ts`): `references` is the
optional `{table, column}` pair. -/
structure ColumnDefinition where
  name : String
  type : String
  isPrimaryKey : Bool
  isForeignKey : Bool
  isNotNull : Bool
  isUnique : Bool
  defaultValue : Option String
  references : Option (String × String)
deriving Repr, DecidableEq

/-- `ParsedCreateTableQuery`. -/
structure ParsedCreateTableQuery where
  tableName : String
  columns : List ColumnDefinition
deriving Repr, DecidableEq

/-- `def.trim().split(/\s+/)`: the whitespace-separated tokens. -/
def splitWSTokens : List Char → List (List Char)
  | [] => []
  | c :: cs =>
    if isWS c then splitWSTokens cs
    else
      match splitWSTokens cs with
      | [] => [[c]]
      | t :: ts => if cs.head?.elim false isWS then [c] :: t :: ts else (c :: t) :: ts

/-- Leftmost match of `/DEFAULT\s+([^\s,]+)/i`: after the literal
`DEFAULT` (no word boundary is required) and one-or-more whitespace, a
maximal nonempty run of characters that are neither whitespace nor a
comma. -/
def defaultScan : List Char → Option (List Char)
  | [] => none
  | c :: cs =>
    let attempt : Option (List Char) :=
      match matchLitCI "DEFAULT".data (c :: cs) with
      | some rest =>
        let w := runLen isWS rest
        if w = 0 then none
        else
          let v := (rest.drop w).takeWhile (fun ch => !isWS ch ∧ ch ≠ ',')
          if v.isEmpty then none else some v
      | none => none
    match attempt with
    | some v => some v
    | none => defaultScan cs

/-- Consume one optional backtick. -/
def dropBacktick (cs : List Char) : List Char :=
  match cs with
  | c :: rest => if c = '\x60' then rest else cs
  | [] => cs

/-- One attempt of `/REFERENCES\s+`?(\w+)`?\s*\(`?(\w+)`?\)/i`: the
referenced table and column names (backtick-quoted or bare). -/
def refAttempt (cs : List Char) : Option (String × String) :=
  match matchLitCI "REFERENCES".data cs with
  | none => none
  | some rest =>
    let w := runLen isWS rest
    if w = 0 then none
    else
      let r1 := dropBacktick (rest.drop w)
      let t := runLen isWordChar r1
      if t = 0 then none
      else
        let table := r1.take t
        let r2 := dropBacktick (r1.drop t)
        let r3 := r2.drop (runLen isWS r2)
        match r3 with
        | '(' :: r4 =>
          let r5 := dropBacktick r4
          let u := runLen isWordChar r5
          if u = 0 then none
          else
            let col := r5.take u
            let r6 := dropBacktick (r5.drop u)
            match r6 with
            | ')' :: _ => some (⟨table⟩, ⟨col⟩)
            | _ => none
        | _ => none

/-- Leftmost match of the `REFERENCES` regex. -/
def refScan : List Char → Option (String × String)
  | [] => none
  | c :: cs =>
    match refAttempt (c :: cs) with
    | some r => some r
    | none => refScan cs

/-- `parseColumnDefinition`: first two tokens are name (backticks
stripped) and type; the flags scan the uppercased text for
`PRIMARY KEY`, `REFERENCES`, `NOT NULL`, `UNIQUE`; `DEFAULT` value and
`REFERENCES table(column)` are extracted by their regexes. -/
def parseColumnDefinition (defn : List Char) : Option ColumnDefinition :=
  let parts := splitWSTokens (listTrim defn)
  if parts.length < 2 then none
  else
    let name := parts.headD []
    let cleanName := name.filter (fun ch => ch ≠ '\x60')
    let ty := (parts.drop 1).headD []
    if cleanName.isEmpty ∨ ty.isEmpty then none
    else
      let upperDef := listUpper defn
      some {
        name := ⟨cleanName⟩
        type := ⟨ty⟩
        isPrimaryKey := containsSub "PRIMARY KEY".data upperDef
        isForeignKey := containsSub "REFERENCES".data upperDef
        isNotNull := containsSub "NOT NULL".data upperDef
        isUnique := containsSub "UNIQUE".data upperDef
        defaultValue := (defaultScan defn).map (⟨·⟩)
        references := refScan defn
      }

/-- `/^(PRIMARY\s+KEY|FOREIGN\s+KEY|UNIQUE|CHECK|CONSTRAINT)/i` on the
trimmed definition: table-level constraints are skipped. -/
def isTableConstraint (cs : List Char) : Bool :=
  (match matchKws ["PRIMARY".data, "KEY".data] cs with
   | some _ => true
   | none => false) ||
  (match matchKws ["FOREIGN".data, "KEY".data] cs with
   | some _ => true
   | none => false) ||
  (matchLitCI "UNIQUE".data cs).isSome ||
  (matchLitCI "CHECK".data cs).isSome ||
  (matchLitCI "CONSTRAINT".data cs).isSome

/-- `splitColumnDefinitions`: split on commas at parenthesis depth
zero (the depth counter increments on `(` and decrements on `)`; it is
an integer, as in JavaScript, so unbalanced `)` drives it negative
rather than clamping). -/
def splitColumnDefsAux (depth : Int) (cur : List Char) : List Char → List (List Char)
  | [] => if ¬ (listTrim cur).isEmpty then [cur] else []
  | c :: rest =>
    if c = '(' then splitColumnDefsAux (depth + 1) (cur ++ [c]) rest
    else if c = ')' then splitColumnDefsAux (depth - 1) (cur ++ [c]) rest
    else if c = ',' ∧ depth = 0 then cur :: splitColumnDefsAux depth [] rest
    else splitColumnDefsAux depth (cur ++ [c]) rest

/-- One step of the `parseColumnDefinitions` loop: skip table-level
constraints, parse the trimmed definition, drop it if unparseable. -/
def colDefStep (defn : List Char) (acc : List ColumnDefinition) : List ColumnDefinition :=
  if isTableConstraint (listTrim defn) then acc
  else
    match parseColumnDefinition (listTrim defn) with
    | some col => col :: acc
    | none => acc

/-- `parseColumnDefinitions`: split, skip table-level constraints,
parse each remaining definition. -/
def parseColumnDefinitions (columnsStr : List Char) : List ColumnDefinition :=
  (splitColumnDefsAux 0 [] columnsStr).foldr colDefStep []

/-- Leftmost match of
`/CREATE\s+TABLE\s+(?:IF\s+NOT\s+EXISTS\s+)?(\w+)/i`: the table name.
The optional `IF NOT EXISTS` group is greedy: it is consumed when it
matches fully, otherwise the name capture starts right after
`TABLE\s+`. -/
def tableNameScan : List Char → Option (List Char)
  | [] => none
  | c :: cs =>
    let attempt : Option (List Char) :=
      match matchKws ["CREATE".data, "TABLE".data] (c :: cs) with
      | some rest =>
        let w := runLen isWS rest
        if w = 0 then none
        else
          let r1 := rest.drop w
          let withOpt : Option (List Char) :=
            match matchKws ["IF".data, "NOT".data, "EXISTS".data] r1 with
            | some r2 =>
              let w2 := runLen isWS r2
              if w2 = 0 then none
              else
                let t := runLen isWordChar (r2.drop w2)
                if t = 0 then none else some ((r2.drop w2).take t)
            | none => none
          match withOpt with
          | some v => some v
          | none =>
            let t := runLen isWordChar r1
            if t = 0 then none else some (r1.take t)
      | none => none
    match attempt with
    | some v => some v
    | none => tableNameScan cs

/-- Leftmost match of `/\(([^)]+)\)/`: from the first `(` that is
followed by at least one non-`)` character and then a `)`, the captured
run stops at the *first* closing parenthesis — there is no depth
counter at this extraction step. -/
def columnsBlockScan : List Char → Option (List Char)
  | [] => none
  | c :: cs =>
    (if c = '(' then
      let run := cs.takeWhile (fun ch => ch ≠ ')')
      if run.isEmpty then none
      else if (cs.drop run.length).head?.elim false (· = ')') then some run
      else none
    else none).elim (columnsBlockScan cs) some

/-- `SQLParserService.parseCreateTable`. -/
def parseCreateTable (query : String) : Except ErrModel ParsedCreateTableQuery :=
  let nq := (normalizeQuery query).data
  match tableNameScan nq with
  | none => .error (sqlParseError "Could not parse table name from CREATE TABLE" query)
  | some tableName =>
    match columnsBlockScan nq with
    | none => .error (sqlParseError "Could not parse column definitions" query)
    | some columnsStr =>
      .ok { tableName := ⟨tableName⟩, columns := parseColumnDefinitions columnsStr }

/-- The parse of an inline-`REFERENCES` witness column definition. -/
def c9colD : ColumnDefinition :=
  (parseColumnDefinition "b INT REFERENCES d(x)".data).getD
    ⟨"", "", false, false, false, false, none, none⟩

/-! ## `SQLVisualizationService` — the data-flow simulator

`generateDataFlow` processes the execution steps over a running
`(rows, columns)` state, emitting one `DataFlowStep` snapshot per
processed step.  The repository's two delegated reads
(`getTableData`) are modelled as a function parameter. -/

/-- `RowState` (`types/index.ts`). -/
structure RowState where
  data : RowData
  included : Bool
  excludedReason : Option String
deriving Repr, DecidableEq

/-- The `stats` record of a `DataFlowStep`. -/
structure DataFlowStats where
  totalRows : Nat
  includedRows : Nat
  excludedRows : Nat
deriving Repr, DecidableEq

/-- `DataFlowStep`. -/
structure DataFlowStep where
  stepOrder : Nat
  stepType : StepType
  rows : List RowState
  columns : List String
  description : String
  stats : DataFlowStats
deriving Repr, DecidableEq

/-- `TableData` as returned by the repository. -/
structure TableData where
  tableName : String
  columns : List String
  rows : List RowData
deriving Repr

/-- One `ORDER BY` key. -/
inductive SortDir where
  | asc | desc
deriving Repr, DecidableEq

structure OrderKey where
  column : String
  direction : SortDir
deriving Repr, DecidableEq

/-- One `FROM` source (`{table, alias?}`). -/
structure FromRef where
  table : String
  al : Option String
deriving Repr, DecidableEq

/-- `ParsedSelectQuery`, restricted to the fields `generateDataFlow`
consults (`from` and `where` are Lean keywords; the fields are named
`fromTables` and `whereClause`). -/
structure ParsedSelectQuery where
  columns : List String
  isDistinct : Bool
  fromTables : List FromRef
  whereClause : Option String
  groupBy : Option (List String)
  having : Option String
  orderBy : Option (List OrderKey)
  limit : Option Nat
  offset : Option Nat

/-- `createDataFlowStep`: snapshot with included/excluded counts. -/
def createDataFlowStep (es : ExecutionStep) (rows : List RowState)
    (cols : List String) : DataFlowStep :=
  { stepOrder := es.order
    stepType := es.type
    rows := rows
    columns := cols
    description := es.description
    stats := {
      totalRows := rows.length
      includedRows := (rows.filter (fun r => r.included)).length
      excludedRows := (rows.filter (fun r => !r.included)).length } }

/-- `applyWhereFilter`: re-evaluate every still-included row;
already-excluded rows are returned untouched. -/
def applyWhereFilter (rows : List RowState) (w : String) : List RowState :=
  rows.map fun row =>
    if !row.included then row
    else
      let isMatch := evaluateSimpleCondition row.data w
      { row with included := isMatch
                 excludedReason := if isMatch then none
                                   else some ("Does not match: " ++ w) }

/-- `applyHavingFilter` (same mechanics, different reason text). -/
def applyHavingFilter (rows : List RowState) (h : String) : List RowState :=
  rows.map fun row =>
    if !row.included then row
    else
      let isMatch := evaluateSimpleCondition row.data h
      { row with included := isMatch
                 excludedReason := if isMatch then none
                                   else some ("Does not match HAVING: " ++ h) }

/-- `\s+AS\s+(\w+)` — the tail of the alias regex. -/
def aliasTail (cs : List Char) : Option (List Char) :=
  let w := runLen isWS cs
  if w = 0 then none
  else
    match matchLitCI "AS".data (cs.drop w) with
    | none => none
    | some r =>
      let w2 := runLen isWS r
      if w2 = 0 then none
      else
        let t := runLen isWordChar (r.drop w2)
        if t = 0 then none else some ((r.drop w2).take t)

/-- One attempt of `/(.+)\s+AS\s+(\w+)/i`: the greedy `(.+)` takes the
longest non-newline prefix that leaves a matching `\s+AS\s+\w+`. -/
def aliasMatchAt (cs : List Char) : Option (List Char × List Char) :=
  let m := runLen (fun c => c ≠ '\n') cs
  if m = 0 then none
  else
    (List.range m).findSome? fun d =>
      let l := m - d
      (aliasTail (cs.drop l)).map fun a => (cs.take l, a)

/-- Leftmost match of the alias regex. -/
def aliasMatch : List Char → Option (List Char × List Char)
  | [] => none
  | c :: cs =>
    match aliasMatchAt (c :: cs) with
    | some r => some r
    | none => aliasMatch cs

/-- `resolveSelectedColumns`: a sole `*` resolves to the full current
column list; `expr AS alias` resolves to the alias. -/
def resolveSelectedColumns (selected available : List String) : List String :=
  if selected = ["*"] then available
  else
    selected.map fun col =>
      match aliasMatch col.data with
      | some (_, a) => ⟨a⟩
      | none => col

/-- JavaScript object property assignment (`obj[k] = v`): overwrite an
existing key in place or append a new one. -/
def objInsert (data : RowData) (k : String) (v : JSValue) : RowData :=
  if data.any (fun p => p.1 = k) then
    data.map (fun p => if p.1 = k then (k, v) else p)
  else data ++ [(k, v)]

/-- `projectColumns`: rebuild each row's data to the resolved columns
(`col AS alias` reads the trimmed source column; `*` copies all
properties; a plain column reads itself, `undefined` when absent).
The `included` flag and reason are untouched. -/
def projectColumns (rows : List RowState) (columns : List String) : List RowState :=
  rows.map fun row =>
    let projectedData := columns.foldl (fun acc col =>
      match aliasMatch col.data with
      | some (src, a) =>
        if (listTrim src).isEmpty then acc
        else objInsert acc ⟨a⟩ (getProp row.data ⟨listTrim src⟩)
      | none =>
        if col = "*" then row.data.foldl (fun acc2 p => objInsert acc2 p.1 p.2) acc
        else objInsert acc col (getProp row.data col)) []
    { row with data := projectedData }

/-- One JSON value for `JSON.stringify` (string escaping is not
modelled; the row values exercised here contain no quotes or
backslashes). -/
def jsonVal : JSValue → String
  | .vnum q => numToString q
  | .vstr s => "\"" ++ s ++ "\""
  | .vnull => "null"
  | .vundefined => "null"

/-- `JSON.stringify(row.data)`: insertion-ordered keys; properties
whose value is `undefined` are omitted.  (Integer-like property names,
which JavaScript would enumerate first, do not occur among column
names.) -/
def jsonStringify (data : RowData) : String :=
  let fields := data.foldr (fun p acc =>
    match p.2 with
    | .vundefined => acc
    | v => ("\"" ++ p.1 ++ "\":" ++ jsonVal v) :: acc) []
  "\x7b" ++ String.intercalate "," fields ++ "\x7d"

/-- The scan of `applyDistinct`: the seen-set of serialized row
contents grows as included rows pass; a repeated key excludes the row. -/
def applyDistinctGo (seen : List String) : List RowState → List RowState
  | [] => []
  | row :: rest =>
    if !row.included then row :: applyDistinctGo seen rest
    else
      let key := jsonStringify row.data
      if seen.contains key then
        { row with included := false
                   excludedReason := some "Duplicate row removed by DISTINCT" }
          :: applyDistinctGo seen rest
      else row :: applyDistinctGo (key :: seen) rest

/-- `applyDistinct`. -/
def applyDistinct (rows : List RowState) : List RowState := applyDistinctGo [] rows

/-- The JS comparator of `applyOrderBy`, as a three-way comparison:
numeric when both values are numbers (`aVal - bVal`), otherwise string
comparison of the `String(...)` coercions (modelling
`localeCompare`); `DESC` negates; ties fall to the next key. -/
def rowCompare (keys : List OrderKey) (a b : RowState) : Ordering :=
  match keys with
  | [] => Ordering.eq
  | k :: rest =>
    let av := getProp a.data k.column
    let bv := getProp b.data k.column
    let cmp : Ordering :=
      match av, bv with
      | .vnum x, .vnum y =>
        if jsNumEq x y then Ordering.eq
        else if jsNumLt x y then Ordering.lt else Ordering.gt
      | _, _ => compare (jsToString av) (jsToString bv)
    let cmp := match k.direction with
      | .desc => cmp.swap
      | .asc => cmp
    match cmp with
    | .eq => rowCompare rest a b
    | o => o

/-- `[...rows].sort(comparator)`, a stable sort (per the modern
ECMAScript specification), modelled as merge sort with
`le a b := comparator a b ≤ 0`. -/
def applyOrderBy (rows : List RowState) (keys : List OrderKey) : List RowState :=
  rows.mergeSort (fun a b => rowCompare keys a b ≠ Ordering.gt)

/-- The scan of `applyLimit`: count included rows; those beyond the
limit are excluded. -/
def applyLimitGo (limit : Nat) (cnt : Nat) : List RowState → List RowState
  | [] => []
  | row :: rest =>
    if !row.included then row :: applyLimitGo limit cnt rest
    else
      if cnt + 1 > limit then
        { row with included := false
                   excludedReason := some ("Excluded by LIMIT " ++ natToStr limit) }
          :: applyLimitGo limit (cnt + 1) rest
      else row :: applyLimitGo limit (cnt + 1) rest

/-- `applyLimit`. -/
def applyLimit (rows : List RowState) (limit : Nat) : List RowState :=
  applyLimitGo limit 0 rows

/-- The scan of `applyOffset`: the first `offset` included rows are
excluded. -/
def applyOffsetGo (offset : Nat) (cnt : Nat) : List RowState → List RowState
  | [] => []
  | row :: rest =>
    if !row.included then row :: applyOffsetGo offset cnt rest
    else
      if cnt + 1 ≤ offset then
        { row with included := false
                   excludedReason := some ("Skipped by OFFSET " ++ natToStr offset) }
          :: applyOffsetGo offset (cnt + 1) rest
      else row :: applyOffsetGo offset (cnt + 1) rest

/-- `applyOffset`. -/
def applyOffset (rows : List RowState) (offset : Nat) : List RowState :=
  applyOffsetGo offset 0 rows

/-- The running state of `generateDataFlow`: the accumulated
`dataFlow`, `currentRows`, `currentColumns`. -/
structure SimState where
  dataFlow : List DataFlowStep
  rows : List RowState
  cols : List String

/-- The `FROM` block: seed rows (all included) and columns from the
primary table, emit the snapshot. -/
def simFrom (gtd : String → TableData) (primary : String)
    (steps : List ExecutionStep) (st : SimState) : SimState :=
  match steps.find? (fun s => s.type = StepType.FROM) with
  | some fromStep =>
    let td := gtd primary
    let rows : List RowState := td.rows.map (fun r => ⟨r, true, none⟩)
    ⟨st.dataFlow ++ [createDataFlowStep fromStep rows td.columns], rows, td.columns⟩
  | none => st

/-- `/JOIN\s+`?(\w+)`?/i` on a join step's clause (leftmost, no word
boundary). -/
def joinTableScan : List Char → Option (List Char)
  | [] => none
  | c :: cs =>
    (match matchLitCI "JOIN".data (c :: cs) with
     | some rest =>
       let w := runLen isWS rest
       if w = 0 then none
       else
         let r := dropBacktick (rest.drop w)
         let t := runLen isWordChar r
         if t = 0 then none else some (r.take t)
     | none => none).elim (joinTableScan cs) some

/-- The `JOIN` loop: per join step whose clause yields a table name,
append that table's prefixed columns and emit a snapshot; the rows are
not actually joined. -/
def simJoins (gtd : String → TableData) (steps : List ExecutionStep)
    (st : SimState) : SimState :=
  (steps.filter (fun s => s.type = StepType.JOIN)).foldl (fun st joinStep =>
    match joinTableScan joinStep.clause.data with
    | some tname =>
      let td := gtd ⟨tname⟩
      let newCols := td.columns.map (fun c => (⟨tname⟩ : String) ++ "." ++ c)
      let cols := st.cols ++ newCols
      ⟨st.dataFlow ++ [createDataFlowStep joinStep st.rows cols], st.rows, cols⟩
    | none => st) st

/-- The `WHERE` block (guarded by the step's presence and a truthy
`parsedQuery.where`). -/
def simWhere (pq : ParsedSelectQuery) (steps : List ExecutionStep)
    (st : SimState) : SimState :=
  match steps.find? (fun s => s.type = StepType.WHERE), pq.whereClause with
  | some ws, some w =>
    if w = "" then st
    else
      let rows := applyWhereFilter st.rows w
      ⟨st.dataFlow ++ [createDataFlowStep ws rows st.cols], rows, st.cols⟩
  | _, _ => st

/-- The `GROUP BY` block: pass-through snapshot. -/
def simGroupBy (pq : ParsedSelectQuery) (steps : List ExecutionStep)
    (st : SimState) : SimState :=
  match steps.find? (fun s => s.type = StepType.GROUP_BY), pq.groupBy with
  | some gs, some _ =>
    ⟨st.dataFlow ++ [createDataFlowStep gs st.rows st.cols], st.rows, st.cols⟩
  | _, _ => st

/-- The `HAVING` block. -/
def simHaving (pq : ParsedSelectQuery) (steps : List ExecutionStep)
    (st : SimState) : SimState :=
  match steps.find? (fun s => s.type = StepType.HAVING), pq.having with
  | some hs, some h =>
    if h = "" then st
    else
      let rows := applyHavingFilter st.rows h
      ⟨st.dataFlow ++ [createDataFlowStep hs rows st.cols], rows, st.cols⟩
  | _, _ => st

/-- The `SELECT` block: resolve and project columns. -/
def simSelect (pq : ParsedSelectQuery) (steps : List ExecutionStep)
    (st : SimState) : SimState :=
  match steps.find? (fun s => s.type = StepType.SELECT) with
  | some ss =>
    let selectedColumns := resolveSelectedColumns pq.columns st.cols
    let rows := projectColumns st.rows selectedColumns
    ⟨st.dataFlow ++ [createDataFlowStep ss rows selectedColumns], rows, selectedColumns⟩
  | none => st

/-- The `DISTINCT` block. -/
def simDistinct (pq : ParsedSelectQuery) (steps : List ExecutionStep)
    (st : SimState) : SimState :=
  match steps.find? (fun s => s.type = StepType.DISTINCT) with
  | some ds =>
    if pq.isDistinct then
      let rows := applyDistinct st.rows
      ⟨st.dataFlow ++ [createDataFlowStep ds rows st.cols], rows, st.cols⟩
    else st
  | none => st

/-- The `ORDER BY` block. -/
def simOrderBy (pq : ParsedSelectQuery) (steps : List ExecutionStep)
    (st : SimState) : SimState :=
  match steps.find? (fun s => s.type = StepType.ORDER_BY), pq.orderBy with
  | some os, some keys =>
    let rows := applyOrderBy st.rows keys
    ⟨st.dataFlow ++ [createDataFlowStep os rows st.cols], rows, st.cols⟩
  | _, _ => st

/-- The `LIMIT` block (guard: `parsedQuery.limit !== undefined`). -/
def simLimit (pq : ParsedSelectQuery) (steps : List ExecutionStep)
    (st : SimState) : SimState :=
  match steps.find? (fun s => s.type = StepType.LIMIT), pq.limit with
  | some ls, some n =>
    let rows := applyLimit st.rows n
    ⟨st.dataFlow ++ [createDataFlowStep ls rows st.cols], rows, st.cols⟩
  | _, _ => st

/-- The `OFFSET` block. -/
def simOffset (pq : ParsedSelectQuery) (steps : List ExecutionStep)
    (st : SimState) : SimState :=
  match steps.find? (fun s => s.type = StepType.OFFSET), pq.offset with
  | some os, some n =>
    let rows := applyOffset st.rows n
    ⟨st.dataFlow ++ [createDataFlowStep os rows st.cols], rows, st.cols⟩
  | _, _ => st

/-- The full step sequence of `generateDataFlow` on an initial empty
state. -/
def simPipeline (gtd : String → TableData) (primary : String)
    (pq : ParsedSelectQuery) (steps : List ExecutionStep) : SimState :=
  simOffset pq steps (simLimit pq steps (simOrderBy pq steps (simDistinct pq steps
    (simSelect pq steps (simHaving pq steps (simGroupBy pq steps (simWhere pq steps
      (simJoins gtd steps (simFrom gtd primary steps ⟨[], [], []⟩)))))))))

/-- `SQLVisualizationService.generateDataFlow`: reject a missing (or
falsy) primary table, then run the pipeline. -/
def generateDataFlow (gtd : String → TableData) (pq : ParsedSelectQuery)
    (steps : List ExecutionStep) : Except ErrModel (List DataFlowStep) :=
  match pq.fromTables.head? with
  | none => .error (sqlExecutionError "No table specified in query")
  | some f =>
    if f.table = "" then .error (sqlExecutionError "No table specified in query")
    else .ok (simPipeline gtd f.table pq steps).dataFlow

/-! ## Concrete witness inputs for the simulator claims -/

/-- A two-row single-column table, as the repository would return it. -/
def w10gtd : String → TableData := fun _ =>
  ⟨"xs", ["c"], [[("c", JSValue.int 1)], [("c", JSValue.int 2)]]⟩

/-- `SELECT * FROM xs WHERE c > 1`, as a parsed query. -/
def w10pq : ParsedSelectQuery :=
  ⟨["*"], false, [⟨"xs", none⟩], some "c > 1", none, none, none, none, none⟩

/-- The matching execution steps. -/
def w10steps : List ExecutionStep :=
  [⟨1, .FROM, "FROM xs", "Load data from table(s)"⟩,
   ⟨2, .WHERE, "WHERE c > 1", "Filter rows based on conditions"⟩,
   ⟨3, .SELECT, "SELECT *", "Select specified columns"⟩]

/-- The data flow the simulator emits for the witness inputs. -/
def w10out : List DataFlowStep := (generateDataFlow w10gtd w10pq w10steps).toOption.getD []

/-- A placeholder step (for total `headD` access in witnesses). -/
def dfDummy : DataFlowStep := ⟨0, .FROM, [], [], "", ⟨0, 0, 0⟩⟩

/-- Query used as the concrete witness input for the execution-order
claims (its table name avoids the characters of the `FROM` stop class). -/
def c5Query : String := "SELECT DISTINCT c FROM xs WHERE c > 1 ORDER BY c LIMIT 2"

/-- The step list `parseExecutionOrder` produces for `c5Query`. -/
def c5Steps : List ExecutionStep :=
  [⟨1, .FROM, "FROM xs", "Load data from table(s)"⟩,
   ⟨2, .WHERE, "WHERE c > 1", "Filter rows based on conditions"⟩,
   ⟨3, .SELECT, "SELECT c", "Select specified columns"⟩,
   ⟨4, .DISTINCT, "DISTINCT", "Remove duplicate rows"⟩,
   ⟨5, .ORDER_BY, "ORDER BY c", "Sort result rows"⟩,
   ⟨6, .LIMIT, "LIMIT 2", "Limit results to 2 rows"⟩]

/-! # Theorems -/

/-! ## Accumulator invariants of `parseExecutionOrder` -/

/-- Invariant of the `(steps, order)` accumulator: the counter is one
past the number of steps, and the `i`-th emitted step carries order
`i + 1`. -/
def StepsInv (st : List ExecutionStep × Nat) : Prop :=
  st.2 = st.1.length + 1 ∧ ∀ i (h : i < st.1.length), (st.1.get ⟨i, h⟩).order = i + 1

theorem stepsInv_nil : StepsInv ([], 1) :=
  ⟨rfl, fun i h => absurd h (Nat.not_lt_zero i)⟩

theorem stepsInv_emit {st : List ExecutionStep × Nat} (h : StepsInv st) (ty : StepType)
    (c d : String) : StepsInv (emit st ty c d) := by
  obtain ⟨h1, h2⟩ := h
  refine ⟨by simp [emit, h1], ?_⟩
  intro i hi
  simp only [emit, List.length_append, List.length_cons, List.length_nil] at hi
  rw [List.get_eq_getElem]
  simp only [emit]
  rcases Nat.lt_or_ge i st.1.length with hlt | hge
  · rw [List.getElem_append_left hlt]
    have := h2 i hlt
    rw [List.get_eq_getElem] at this
    exact this
  · have hEq : i = st.1.length := by omega
    rw [List.getElem_append_right hge]
    subst hEq
    simp [h1]

theorem stepsInv_stepFrom (nq : List Char) {st} (h : StepsInv st) :
    StepsInv (stepFrom nq st) := by
  unfold stepFrom; split
  · exact stepsInv_emit h _ _ _
  · exact h

theorem stepsInv_stepJoins (nq : List Char) {st} (h : StepsInv st) :
    StepsInv (stepJoins nq st) := by
  unfold stepJoins
  generalize joinScan nq = js
  induction js generalizing st with
  | nil => exact h
  | cons j js ih => exact ih (stepsInv_emit h _ _ _)

theorem stepsInv_stepWhere (nq : List Char) {st} (h : StepsInv st) :
    StepsInv (stepWhere nq st) := by
  unfold stepWhere; split
  · exact stepsInv_emit h _ _ _
  · exact h

theorem stepsInv_stepGroupBy (nq : List Char) {st} (h : StepsInv st) :
    StepsInv (stepGroupBy nq st) := by
  unfold stepGroupBy; split
  · exact stepsInv_emit h _ _ _
  · exact h

theorem stepsInv_stepHaving (nq : List Char) {st} (h : StepsInv st) :
    StepsInv (stepHaving nq st) := by
  unfold stepHaving; split
  · exact stepsInv_emit h _ _ _
  · exact h

theorem stepsInv_stepSelect (nq : List Char) {st} (h : StepsInv st) :
    StepsInv (stepSelect nq st) := by
  unfold stepSelect; split
  · split
    · exact stepsInv_emit (stepsInv_emit h _ _ _) _ _ _
    · exact stepsInv_emit h _ _ _
  · exact h

theorem stepsInv_stepOrderBy (nq : List Char) {st} (h : StepsInv st) :
    StepsInv (stepOrderBy nq st) := by
  unfold stepOrderBy; split
  · exact stepsInv_emit h _ _ _
  · exact h

theorem stepsInv_stepLimit (nq : List Char) {st} (h : StepsInv st) :
    StepsInv (stepLimit nq st) := by
  unfold stepLimit; split
  · exact stepsInv_emit h _ _ _
  · exact h

theorem stepsInv_stepOffset (nq : List Char) {st} (h : StepsInv st) :
    StepsInv (stepOffset nq st) := by
  unfold stepOffset; split
  · exact stepsInv_emit h _ _ _
  · exact h

/-! ## Tail-shape lemmas: each stage only appends steps of its own
type(s). -/

theorem stepFrom_shape (nq : List Char) (st : List ExecutionStep × Nat) :
    ∃ tail, (stepFrom nq st).1 = st.1 ++ tail ∧ tail.length ≤ 1 ∧
      ∀ s ∈ tail, s.type = StepType.FROM := by
  unfold stepFrom; split
  · refine ⟨[⟨st.2, .FROM, _, _⟩], rfl, by simp, ?_⟩
    intro s hs
    rw [List.mem_singleton] at hs
    subst hs; rfl
  · exact ⟨[], by simp, by simp, by simp⟩

theorem stepJoins_shape (nq : List Char) (st : List ExecutionStep × Nat) :
    ∃ tail, (stepJoins nq st).1 = st.1 ++ tail ∧ ∀ s ∈ tail, s.type = StepType.JOIN := by
  unfold stepJoins
  generalize joinScan nq = js
  induction js generalizing st with
  | nil => exact ⟨[], by simp, by simp⟩
  | cons j js ih =>
    obtain ⟨tail, h1, h2⟩ := ih (emit st .JOIN (jsTrim j) "Combine rows from joined tables")
    refine ⟨⟨st.2, .JOIN, jsTrim j, "Combine rows from joined tables"⟩ :: tail, ?_, ?_⟩
    · rw [List.foldl_cons, h1]
      simp [emit]
    · intro s hs
      rcases List.mem_cons.mp hs with hs | hs
      · subst hs; rfl
      · exact h2 s hs

theorem stepWhere_shape (nq : List Char) (st : List ExecutionStep × Nat) :
    ∃ tail, (stepWhere nq st).1 = st.1 ++ tail ∧ ∀ s ∈ tail, s.type = StepType.WHERE := by
  unfold stepWhere; split
  · refine ⟨[⟨st.2, .WHERE, _, _⟩], rfl, ?_⟩
    intro s hs
    rw [List.mem_singleton] at hs
    subst hs; rfl
  · exact ⟨[], by simp, by simp⟩

theorem stepGroupBy_shape (nq : List Char) (st : List ExecutionStep × Nat) :
    ∃ tail, (stepGroupBy nq st).1 = st.1 ++ tail ∧ ∀ s ∈ tail, s.type = StepType.GROUP_BY := by
  unfold stepGroupBy; split
  · refine ⟨[⟨st.2, .GROUP_BY, _, _⟩], rfl, ?_⟩
    intro s hs
    rw [List.mem_singleton] at hs
    subst hs; rfl
  · exact ⟨[], by simp, by simp⟩

theorem stepHaving_shape (nq : List Char) (st : List ExecutionStep × Nat) :
    ∃ tail, (stepHaving nq st).1 = st.1 ++ tail ∧ ∀ s ∈ tail, s.type = StepType.HAVING := by
  unfold stepHaving; split
  · refine ⟨[⟨st.2, .HAVING, _, _⟩], rfl, ?_⟩
    intro s hs
    rw [List.mem_singleton] at hs
    subst hs; rfl
  · exact ⟨[], by simp, by simp⟩

theorem stepSelect_shape (nq : List Char) (st : List ExecutionStep × Nat) :
    ∃ tail, (stepSelect nq st).1 = st.1 ++ tail ∧
      ∀ s ∈ tail, s.type = StepType.SELECT ∨ s.type = StepType.DISTINCT := by
  unfold stepSelect; split
  next d cap heq =>
    split
    next hd =>
      refine ⟨[⟨st.2, .SELECT, "SELECT " ++ String.mk (listTrim cap), "Select specified columns"⟩,
               ⟨st.2 + 1, .DISTINCT, "DISTINCT", "Remove duplicate rows"⟩], ?_, ?_⟩
      · simp [emit]
      · intro s hs
        rcases List.mem_cons.mp hs with hs | hs
        · subst hs; exact Or.inl rfl
        · rw [List.mem_singleton] at hs
          subst hs; exact Or.inr rfl
    next hd =>
      refine ⟨[⟨st.2, .SELECT, "SELECT " ++ String.mk (listTrim cap),
        "Select specified columns"⟩], rfl, ?_⟩
      intro s hs
      rw [List.mem_singleton] at hs
      subst hs; exact Or.inl rfl
  next => exact ⟨[], by simp, by simp⟩

theorem stepOrderBy_shape (nq : List Char) (st : List ExecutionStep × Nat) :
    ∃ tail, (stepOrderBy nq st).1 = st.1 ++ tail ∧ ∀ s ∈ tail, s.type = StepType.ORDER_BY := by
  unfold stepOrderBy; split
  · refine ⟨[⟨st.2, .ORDER_BY, _, _⟩], rfl, ?_⟩
    intro s hs
    rw [List.mem_singleton] at hs
    subst hs; rfl
  · exact ⟨[], by simp, by simp⟩

theorem stepLimit_shape (nq : List Char) (st : List ExecutionStep × Nat) :
    ∃ tail, (stepLimit nq st).1 = st.1 ++ tail ∧ ∀ s ∈ tail, s.type = StepType.LIMIT := by
  unfold stepLimit; split
  · refine ⟨[⟨st.2, .LIMIT, _, _⟩], rfl, ?_⟩
    intro s hs
    rw [List.mem_singleton] at hs
    subst hs; rfl
  · exact ⟨[], by simp, by simp⟩

theorem stepOffset_shape (nq : List Char) (st : List ExecutionStep × Nat) :
    ∃ tail, (stepOffset nq st).1 = st.1 ++ tail ∧ ∀ s ∈ tail, s.type = StepType.OFFSET := by
  unfold stepOffset; split
  · refine ⟨[⟨st.2, .OFFSET, _, _⟩], rfl, ?_⟩
    intro s hs
    rw [List.mem_singleton] at hs
    subst hs; rfl
  · exact ⟨[], by simp, by simp⟩

/-- The pipeline satisfies the accumulator invariant. -/
theorem stepsInv_runPipeline (nq : List Char) : StepsInv (runPipeline nq) :=
  stepsInv_stepOffset nq (stepsInv_stepLimit nq (stepsInv_stepOrderBy nq
    (stepsInv_stepSelect nq (stepsInv_stepHaving nq (stepsInv_stepGroupBy nq
      (stepsInv_stepWhere nq (stepsInv_stepJoins nq (stepsInv_stepFrom nq stepsInv_nil))))))))

/-- Combined positional facts about the pipeline output: orders are
`i + 1`; `FROM`-typed steps appear only at index 0; `ORDER BY`-typed
steps appear strictly before any `LIMIT`-typed step. -/
theorem runPipeline_orders (nq : List Char) :
    (∀ i (hi : i < (runPipeline nq).1.length), ((runPipeline nq).1.get ⟨i, hi⟩).order = i + 1) ∧
    (∀ i (hi : i < (runPipeline nq).1.length),
      ((runPipeline nq).1.get ⟨i, hi⟩).type = StepType.FROM → i = 0) ∧
    (∀ i (hi : i < (runPipeline nq).1.length) (j) (hj : j < (runPipeline nq).1.length),
      ((runPipeline nq).1.get ⟨i, hi⟩).type = StepType.ORDER_BY →
      ((runPipeline nq).1.get ⟨j, hj⟩).type = StepType.LIMIT → i < j) := by
  obtain ⟨t1, e1, ht1len, ht1⟩ := stepFrom_shape nq ([], 1)
  obtain ⟨t2, e2, ht2⟩ := stepJoins_shape nq (stepFrom nq ([], 1))
  obtain ⟨t3, e3, ht3⟩ := stepWhere_shape nq (stepJoins nq (stepFrom nq ([], 1)))
  obtain ⟨t4, e4, ht4⟩ := stepGroupBy_shape nq (stepWhere nq (stepJoins nq (stepFrom nq ([], 1))))
  obtain ⟨t5, e5, ht5⟩ :=
    stepHaving_shape nq (stepGroupBy nq (stepWhere nq (stepJoins nq (stepFrom nq ([], 1)))))
  obtain ⟨t6, e6, ht6⟩ := stepSelect_shape nq
    (stepHaving nq (stepGroupBy nq (stepWhere nq (stepJoins nq (stepFrom nq ([], 1))))))
  obtain ⟨t7, e7, ht7⟩ := stepOrderBy_shape nq (stepSelect nq
    (stepHaving nq (stepGroupBy nq (stepWhere nq (stepJoins nq (stepFrom nq ([], 1)))))))
  obtain ⟨t8, e8, ht8⟩ := stepLimit_shape nq (stepOrderBy nq (stepSelect nq
    (stepHaving nq (stepGroupBy nq (stepWhere nq (stepJoins nq (stepFrom nq ([], 1))))))))
  obtain ⟨t9, e9, ht9⟩ := stepOffset_shape nq (stepLimit nq (stepOrderBy nq (stepSelect nq
    (stepHaving nq (stepGroupBy nq (stepWhere nq (stepJoins nq (stepFrom nq ([], 1)))))))))
  have hInv := stepsInv_runPipeline nq
  refine ⟨hInv.2, ?_, ?_⟩
  · -- FROM-typed steps only at index 0
    intro i hi hF
    have hsplit : (runPipeline nq).1 =
        t1 ++ (t2 ++ (t3 ++ (t4 ++ (t5 ++ (t6 ++ (t7 ++ (t8 ++ t9))))))) := by
      show (stepOffset nq _).1 = _
      rw [e9, e8, e7, e6, e5, e4, e3, e2, e1]
      simp [List.append_assoc]
    have hB : ∀ s ∈ t2 ++ (t3 ++ (t4 ++ (t5 ++ (t6 ++ (t7 ++ (t8 ++ t9)))))),
        s.type ≠ StepType.FROM := by
      intro s hs hcon
      simp only [List.mem_append] at hs
      rcases hs with h' | h' | h' | h' | h' | h' | h' | h'
      · rw [ht2 s h'] at hcon; exact absurd hcon (by decide)
      · rw [ht3 s h'] at hcon; exact absurd hcon (by decide)
      · rw [ht4 s h'] at hcon; exact absurd hcon (by decide)
      · rw [ht5 s h'] at hcon; exact absurd hcon (by decide)
      · rcases ht6 s h' with h6 | h6 <;> rw [h6] at hcon <;> exact absurd hcon (by decide)
      · rw [ht7 s h'] at hcon; exact absurd hcon (by decide)
      · rw [ht8 s h'] at hcon; exact absurd hcon (by decide)
      · rw [ht9 s h'] at hcon; exact absurd hcon (by decide)
    by_contra hne
    have hge : t1.length ≤ i := by
      rcases Nat.lt_or_ge i t1.length with hlt | hge
      · omega
      · exact hge
    have hmem : (runPipeline nq).1.get ⟨i, hi⟩ ∈
        t2 ++ (t3 ++ (t4 ++ (t5 ++ (t6 ++ (t7 ++ (t8 ++ t9)))))) := by
      rw [List.get_eq_getElem]
      have hi' : i < (t1 ++ (t2 ++ (t3 ++ (t4 ++ (t5 ++ (t6 ++ (t7 ++ (t8 ++ t9)))))))).length := by
        rw [← hsplit]; exact hi
      rw [List.getElem_of_eq hsplit hi, List.getElem_append_right hge]
      exact List.getElem_mem _
    exact hB _ hmem hF
  · -- ORDER BY strictly before LIMIT
    intro i hi j hj hOB hLIM
    have hsplit : (runPipeline nq).1 =
        (stepOrderBy nq (stepSelect nq (stepHaving nq (stepGroupBy nq (stepWhere nq
          (stepJoins nq (stepFrom nq ([], 1)))))))).1 ++ (t8 ++ t9) := by
      show (stepOffset nq _).1 = _
      rw [e9, e8]
      simp [List.append_assoc]
    have hC : ∀ s ∈ (stepOrderBy nq (stepSelect nq (stepHaving nq (stepGroupBy nq (stepWhere nq
        (stepJoins nq (stepFrom nq ([], 1)))))))).1, s.type ≠ StepType.LIMIT := by
      intro s hs hcon
      rw [e7] at hs
      rcases List.mem_append.mp hs with hs | hs
      · rw [e6] at hs
        rcases List.mem_append.mp hs with hs | hs
        · rw [e5] at hs
          rcases List.mem_append.mp hs with hs | hs
          · rw [e4] at hs
            rcases List.mem_append.mp hs with hs | hs
            · rw [e3] at hs
              rcases List.mem_append.mp hs with hs | hs
              · rw [e2] at hs
                rcases List.mem_append.mp hs with hs | hs
                · rw [e1] at hs
                  rcases List.mem_append.mp hs with hs | hs
                  · exact absurd hs (List.not_mem_nil s)
                  · rw [ht1 s hs] at hcon; exact absurd hcon (by decide)
                · rw [ht2 s hs] at hcon; exact absurd hcon (by decide)
              · rw [ht3 s hs] at hcon; exact absurd hcon (by decide)
            · rw [ht4 s hs] at hcon; exact absurd hcon (by decide)
          · rw [ht5 s hs] at hcon; exact absurd hcon (by decide)
        · rcases ht6 s hs with h6 | h6 <;> rw [h6] at hcon <;> exact absurd hcon (by decide)
      · rw [ht7 s hs] at hcon; exact absurd hcon (by decide)
    have hTail : ∀ s ∈ t8 ++ t9, s.type ≠ StepType.ORDER_BY := by
      intro s hs hcon
      rcases List.mem_append.mp hs with hs | hs
      · rw [ht8 s hs] at hcon; exact absurd hcon (by decide)
      · rw [ht9 s hs] at hcon; exact absurd hcon (by decide)
    set C := (stepOrderBy nq (stepSelect nq (stepHaving nq (stepGroupBy nq (stepWhere nq
      (stepJoins nq (stepFrom nq ([], 1)))))))).1 with hCdef
    have hiC : i < C.length := by
      by_contra hge'
      push_neg at hge'
      have hi' : i < (C ++ (t8 ++ t9)).length := by rw [← hsplit]; exact hi
      have hmem : (runPipeline nq).1.get ⟨i, hi⟩ ∈ t8 ++ t9 := by
        rw [List.get_eq_getElem, List.getElem_of_eq hsplit hi, List.getElem_append_right hge']
        exact List.getElem_mem _
      exact hTail _ hmem hOB
    have hjC : C.length ≤ j := by
      by_contra hlt'
      push_neg at hlt'
      have hj' : j < (C ++ (t8 ++ t9)).length := by rw [← hsplit]; exact hj
      have hmem : (runPipeline nq).1.get ⟨j, hj⟩ ∈ C := by
        rw [List.get_eq_getElem, List.getElem_of_eq hsplit hj, List.getElem_append_left hlt']
        exact List.getElem_mem _
      exact hC _ hmem hLIM
    omega

/-- **C5.** Whenever `parseExecutionOrder` returns successfully (does
not throw), the `order` values of the returned steps form a contiguous
`1..N` sequence with no gaps in emission order; if a `FROM` step is
present it has the lowest order among all emitted steps; and whenever
both a `LIMIT` step and an `ORDER BY` step are emitted, the `LIMIT`
step's order is strictly greater than the `ORDER BY` step's. -/
theorem parseExecutionOrder_order_contiguous (query : String) (steps : List ExecutionStep)
    (h : parseExecutionOrder query = Except.ok steps) :
    (∀ i (hi : i < steps.length), (steps.get ⟨i, hi⟩).order = i + 1) ∧
    (∀ i (hi : i < steps.length), (steps.get ⟨i, hi⟩).type = StepType.FROM →
      ∀ j (hj : j < steps.length), (steps.get ⟨i, hi⟩).order ≤ (steps.get ⟨j, hj⟩).order) ∧
    (∀ i (hi : i < steps.length) (j) (hj : j < steps.length),
      (steps.get ⟨i, hi⟩).type = StepType.ORDER_BY →
      (steps.get ⟨j, hj⟩).type = StepType.LIMIT →
      (steps.get ⟨i, hi⟩).order < (steps.get ⟨j, hj⟩).order) := by
  have hsteps : steps = (runPipeline (normalizeQuery query).data).1 := by
    unfold parseExecutionOrder at h
    simp only [] at h
    split at h
    · exact absurd h (by simp)
    · split at h
      · exact absurd h (by simp)
      · exact ((Except.ok.injEq _ _).mp h).symm
  obtain ⟨h1, h2, h3⟩ := runPipeline_orders (normalizeQuery query).data
  subst hsteps
  refine ⟨h1, ?_, ?_⟩
  · intro i hi hF j hj
    have hi0 := h2 i hi hF
    rw [h1 i hi, h1 j hj]
    omega
  · intro i hi j hj hOB hLIM
    have := h3 i hi j hj hOB hLIM
    rw [h1 i hi, h1 j hj]
    omega

/-- Witness: the theorem applied at the concrete query `c5Query`, whose
six steps carry orders `1..6`, with `FROM` first and
`order(ORDER BY) = 5 < 6 = order(LIMIT)`. -/
theorem parseExecutionOrder_order_contiguous_witness :
    (c5Steps.get ⟨4, by decide⟩).order < (c5Steps.get ⟨5, by decide⟩).order :=
  (parseExecutionOrder_order_contiguous c5Query c5Steps (by rfl)).2.2 4 (by decide) 5
    (by decide) (by rfl) (by rfl)

/-- **C1** (evaluation at the failing input). For the spec's own example
`SELECT * FROM users WHERE age > 18`, `parseExecutionOrder` emits *no*
`FROM` step: the source's FROM regex
`/\bFROM\s+([^WHERE|JOIN|GROUP|ORDER|HAVING|LIMIT|;]+)/i` uses a negated
character class (not an alternation lookahead), which excludes the
letter `u`, so the capture cannot start before `users` and the match
fails.  The emitted steps are only `WHERE` (order 1) and `SELECT`
(order 2); consequently `generateDataFlow` finds no `FROM` step to seed
its first snapshot with.  The claim requires a `FROM` step with clause
`FROM users`. -/
theorem parseExecutionOrder_users_no_from_step :
    (parseExecutionOrder "SELECT * FROM users WHERE age > 18").map
        (fun steps => steps.map (fun s => (s.order, s.type, s.clause))) =
      Except.ok [(1, StepType.WHERE, "WHERE age > 18"), (2, StepType.SELECT, "SELECT *")] := by
  rfl

/-! ## Support lemmas for the condition evaluator -/

theorem runLen_le (p : Char → Bool) : ∀ cs : List Char, runLen p cs ≤ cs.length := by
  intro cs
  induction cs with
  | nil => simp [runLen]
  | cons c cs ih =>
    unfold runLen
    split
    · simpa using ih
    · simp

theorem matchLitCI_length : ∀ (lit cs r : List Char), matchLitCI lit cs = some r →
    r.length + lit.length = cs.length := by
  intro lit
  induction lit with
  | nil =>
    intro cs r h
    unfold matchLitCI at h
    cases h
    simp
  | cons p ps ih =>
    intro cs r h
    cases cs with
    | nil => simp [matchLitCI] at h
    | cons c cs =>
      unfold matchLitCI at h
      split at h
      · have := ih cs r h
        simp only [List.length_cons]
        omega
      · cases h

theorem runLen_pos_of_head {p : Char → Bool} {c : Char} {cs : List Char} (h : p c = true) :
    1 ≤ runLen p (c :: cs) := by
  unfold runLen
  rw [h, if_pos rfl]
  omega

theorem sepAttempt_bounds (lit : List Char) (c : Char) (cs : List Char) (len : Nat)
    (h : sepAttempt lit c cs = some len) :
    lit.length + 2 ≤ len ∧ len ≤ (c :: cs).length := by
  unfold sepAttempt at h
  split at h
  next hws =>
    split at h
    next r hm =>
      split at h
      · cases h
      next hw2 =>
        cases h
        have hw1 : 1 ≤ runLen isWS (c :: cs) := runLen_pos_of_head hws
        have hr := matchLitCI_length lit _ r hm
        have hw2' : 1 ≤ runLen isWS r := by omega
        have hdrop : ((c :: cs).drop (runLen isWS (c :: cs))).length =
            (c :: cs).length - runLen isWS (c :: cs) := List.length_drop _ _
        have hwle := runLen_le isWS (c :: cs)
        have hw2le := runLen_le isWS r
        constructor
        · omega
        · simp only [List.length_cons] at hdrop ⊢
          omega
    · cases h
  · cases h

theorem findSepAux_bounds (lit : List Char) :
    ∀ cs i len, findSepAux lit cs = some (i, len) →
      lit.length + 2 ≤ len ∧ i + len ≤ cs.length := by
  intro cs
  induction cs with
  | nil => intro i len h; simp [findSepAux] at h
  | cons c cs ih =>
    intro i len h
    unfold findSepAux at h
    cases hatt : sepAttempt lit c cs with
    | some L =>
      rw [hatt] at h
      simp at h
      obtain ⟨hi, hlen⟩ := h
      obtain ⟨h1, h2⟩ := sepAttempt_bounds lit c cs L hatt
      simp only [List.length_cons] at h2 ⊢
      omega
    | none =>
      rw [hatt] at h
      simp only [Option.map_eq_some'] at h
      obtain ⟨⟨i', len'⟩, hfind, heq⟩ := h
      obtain ⟨h1, h2⟩ := ih i' len' hfind
      cases heq
      simp only [List.length_cons]
      omega

theorem splitSepAux_parts_le (lit : List Char) :
    ∀ fuel cs p, p ∈ splitSepAux lit fuel cs → p.length ≤ cs.length := by
  intro fuel
  induction fuel with
  | zero =>
    intro cs p hp
    simp [splitSepAux] at hp
    simp [hp]
  | succ fuel ih =>
    intro cs p hp
    unfold splitSepAux at hp
    split at hp
    · rw [List.mem_singleton] at hp
      simp [hp]
    next i len hfind =>
      rcases List.mem_cons.mp hp with hp | hp
      · subst hp
        simp [List.length_take]
      · have h1 := ih _ p hp
        have h2 := List.length_drop (i + len) cs
        omega

theorem splitSep_parts_short (lit cs : List Char) (i len : Nat)
    (h : findSepAux lit cs = some (i, len)) :
    ∀ p ∈ splitSep lit cs, p.length + lit.length + 2 ≤ cs.length := by
  intro p hp
  obtain ⟨hlen, hbound⟩ := findSepAux_bounds lit cs i len h
  unfold splitSep at hp
  cases hcs : cs.length with
  | zero => omega
  | succ n =>
    rw [hcs] at hp
    unfold splitSepAux at hp
    rw [h] at hp
    rcases List.mem_cons.mp hp with hp | hp
    · subst hp
      have := List.length_take i cs
      simp only [List.length_take] at this ⊢
      omega
    · have h1 := splitSepAux_parts_le lit n (cs.drop (i + len)) p hp
      have h2 := List.length_drop (i + len) cs
      omega

/-- `Char.ofNat` is a partial inverse of `Char.toNat` on valid
codepoints. -/
theorem char_toNat_ofNat {n : Nat} (h : n.isValidChar) : (Char.ofNat n).toNat = n := by
  unfold Char.ofNat
  rw [dif_pos h]
  unfold Char.ofNatAux Char.toNat
  have : n < 2 ^ 32 := by
    rcases h with h | h
    · omega
    · omega
  simp [UInt32.toNat, BitVec.toNat_ofNat, Nat.mod_eq_of_lt this]

/-- Only the space uppercases to a space. -/
theorem char_toUpper_eq_space {c : Char} (h : c.toUpper = ' ') : c = ' ' := by
  have h' : (if c.toNat ≥ 97 ∧ c.toNat ≤ 122 then Char.ofNat (c.toNat - 32) else c) = ' ' := h
  by_cases hrange : c.toNat ≥ 97 ∧ c.toNat ≤ 122
  · exfalso
    rw [if_pos hrange] at h'
    have hvalid : (c.toNat - 32).isValidChar := by
      left
      omega
    have h32 := congrArg Char.toNat h'
    rw [char_toNat_ofNat hvalid] at h32
    have : c.toNat - 32 = 32 := h32
    omega
  · rw [if_neg hrange] at h'
    exact h'

/-- Whitespace characters are fixed by `Char.toUpper`. -/
theorem char_isWS_toUpper {c : Char} (h : isWS c = true) : c.toUpper = c := by
  unfold isWS Char.isWhitespace at h
  simp only [Bool.or_eq_true, decide_eq_true_eq] at h
  rcases h with ((h | h) | h) | h <;> subst h <;> decide

/-- If a word of `toUpper`-fixed characters is an exact prefix of the
uppercased input, the case-insensitive literal matcher succeeds, and
the remainder's uppercase image carries the rest of the prefix. -/
theorem matchLitCI_of_upper_prefix :
    ∀ (w t cs : List Char), (∀ ch ∈ w, ch.toUpper = ch) →
      List.isPrefixOf (w ++ t) (listUpper cs) = true →
      ∃ r, matchLitCI w cs = some r ∧ List.isPrefixOf t (listUpper r) = true := by
  intro w
  induction w with
  | nil =>
    intro t cs _ hpre
    exact ⟨cs, rfl, by simpa using hpre⟩
  | cons w0 w' ih =>
    intro t cs hfix hpre
    cases cs with
    | nil => simp [listUpper, List.isPrefixOf] at hpre
    | cons c cs' =>
      simp only [listUpper, List.map_cons, List.cons_append, List.isPrefixOf,
        Bool.and_eq_true, beq_iff_eq] at hpre
      obtain ⟨hc, hrest⟩ := hpre
      have hci : ciEq w0 c = true := by
        unfold ciEq
        rw [hfix w0 (by simp), ← hc]
        simp
      obtain ⟨r, hm, hr⟩ := ih t cs' (fun ch hch => hfix ch (by simp [hch])) hrest
      refine ⟨r, ?_, hr⟩
      unfold matchLitCI
      rw [hci]
      exact hm

/-- A non-whitespace, `toUpper`-fixed character cannot be the uppercase
image of a whitespace character. -/
theorem not_isWS_of_upper {c w0 : Char} (hc : c.toUpper = w0) (hfix : w0.toUpper = w0)
    (hnws : isWS w0 = false) : isWS c = false := by
  by_contra hws
  rw [Bool.not_eq_false] at hws
  have := char_isWS_toUpper hws
  rw [this] at hc
  subst hc
  rw [hws] at hnws
  cases hnws

/-- If the uppercased condition contains the spaced literal
`' ' :: w ++ [' ']`, then the separator scanner for `w` finds a
separator (`condition.toUpperCase().includes(' AND ')` implies the
split on `/\s+AND\s+/i` is nontrivial). -/
theorem findSep_of_containsUpper (w0 : Char) (w' : List Char)
    (hfix : ∀ ch ∈ w0 :: w', Char.toUpper ch = ch)
    (hnws : isWS w0 = false) :
    ∀ cond, containsSub (' ' :: ((w0 :: w') ++ [' '])) (listUpper cond) = true →
      (findSepAux (w0 :: w') cond).isSome = true := by
  intro cond
  induction cond with
  | nil => intro h; simp [containsSub, listUpper] at h
  | cons c cs ih =>
    intro h
    simp only [listUpper, List.map_cons] at h
    unfold containsSub at h
    rw [Bool.or_eq_true] at h
    have step : (findSepAux (w0 :: w') cs).isSome = true →
        (findSepAux (w0 :: w') (c :: cs)).isSome = true := by
      intro hs
      unfold findSepAux
      split
      · simp
      · simpa using hs
    rcases h with hpre | htail
    · -- the needle starts at this position
      simp only [List.isPrefixOf, Bool.and_eq_true, beq_iff_eq] at hpre
      obtain ⟨hc, hrest⟩ := hpre
      have hcspace : c = ' ' := char_toUpper_eq_space hc.symm
      -- the character after the space is the head of `w`, hence not whitespace
      cases cs with
      | nil => simp [listUpper, List.isPrefixOf] at hrest
      | cons c1 cs' =>
        simp only [listUpper, List.map_cons, List.cons_append, List.isPrefixOf,
          Bool.and_eq_true, beq_iff_eq] at hrest
        obtain ⟨hc1, hrest'⟩ := hrest
        have hc1nws : isWS c1 = false :=
          not_isWS_of_upper hc1.symm (hfix w0 (by simp)) hnws
        obtain ⟨r, hm, hr⟩ := matchLitCI_of_upper_prefix (w0 :: w') [' '] (c1 :: cs')
          hfix (by
            simp only [listUpper, List.map_cons, List.cons_append, List.isPrefixOf,
              Bool.and_eq_true, beq_iff_eq]
            exact ⟨hc1, by simpa [listUpper] using hrest'⟩)
        -- the remainder starts with a space, so the trailing `\s+` is nonempty
        have hrws : 1 ≤ runLen isWS r := by
          cases r with
          | nil => simp [listUpper, List.isPrefixOf] at hr
          | cons r0 r' =>
            simp only [listUpper, List.map_cons, List.isPrefixOf, Bool.and_eq_true,
              beq_iff_eq] at hr
            have hr0 : r0 = ' ' := char_toUpper_eq_space hr.1.symm
            exact runLen_pos_of_head (by simp [hr0, isWS, Char.isWhitespace])
        have hwsc : isWS c = true := by simp [hcspace, isWS, Char.isWhitespace]
        have hrun1 : runLen isWS (c :: c1 :: cs') = 1 := by
          simp [runLen, hwsc, hc1nws]
        have hdrop : (c :: c1 :: cs').drop (runLen isWS (c :: c1 :: cs')) = c1 :: cs' := by
          rw [hrun1]
          rfl
        have hattempt : sepAttempt (w0 :: w') c (c1 :: cs') =
            some (runLen isWS (c :: c1 :: cs') + (w0 :: w').length + runLen isWS r) := by
          unfold sepAttempt
          rw [if_pos hwsc, hdrop, hm]
          dsimp only
          rw [if_neg (by omega)]
        unfold findSepAux
        rw [hattempt]
        simp
    · exact step (ih htail)

theorem list_all_congr {α : Type} {l : List α} {f g : α → Bool}
    (h : ∀ x ∈ l, f x = g x) : l.all f = l.all g := by
  induction l with
  | nil => rfl
  | cons x xs ih =>
    simp only [List.all_cons]
    rw [h x (by simp), ih (fun y hy => h y (by simp [hy]))]

theorem list_any_congr {α : Type} {l : List α} {f g : α → Bool}
    (h : ∀ x ∈ l, f x = g x) : l.any f = l.any g := by
  induction l with
  | nil => rfl
  | cons x xs ih =>
    simp only [List.any_cons]
    rw [h x (by simp), ih (fun y hy => h y (by simp [hy]))]

/-- One-step unfolding of the fueled evaluator. -/
theorem evalCondFuel_succ (data : RowData) (fuel : Nat) (cond : List Char) :
    evalCondFuel data (fuel + 1) cond =
      match opEval data cond with
      | some b => b
      | none =>
        if containsSub " AND ".data (listUpper cond) then
          (splitSep "AND".data cond).all (fun p => evalCondFuel data fuel p)
        else if containsSub " OR ".data (listUpper cond) then
          (splitSep "OR".data cond).any (fun p => evalCondFuel data fuel p)
        else true := rfl

/-- The recursion fuel is irrelevant above the condition's length: the
AND/OR fragments shrink by at least the separator length each level. -/
theorem evalCondFuel_congr (data : RowData) :
    ∀ f g cond, cond.length < f → cond.length < g →
      evalCondFuel data f cond = evalCondFuel data g cond := by
  intro f
  induction f with
  | zero => intro g cond hf; omega
  | succ f ih =>
    intro g cond hf hg
    cases g with
    | zero => omega
    | succ g =>
      rw [evalCondFuel_succ, evalCondFuel_succ]
      cases hop : opEval data cond with
      | some b => rfl
      | none =>
        by_cases hAND : containsSub " AND ".data (listUpper cond) = true
        · simp only [hAND, if_true]
          apply list_all_congr
          intro p hp
          have hsep : (findSepAux "AND".data cond).isSome = true :=
            findSep_of_containsUpper 'A' "ND".data (by decide) (by decide) cond hAND
          rw [Option.isSome_iff_exists] at hsep
          obtain ⟨⟨i, len⟩, hs⟩ := hsep
          have hshort := splitSep_parts_short "AND".data cond i len hs p hp
          simp only [show ("AND".data.length = 3) from rfl] at hshort
          exact ih g p (by omega) (by omega)
        · simp only [Bool.not_eq_true] at hAND
          simp only [hAND, Bool.false_eq_true, if_false]
          by_cases hOR : containsSub " OR ".data (listUpper cond) = true
          · simp only [hOR, if_true]
            apply list_any_congr
            intro p hp
            have hsep : (findSepAux "OR".data cond).isSome = true :=
              findSep_of_containsUpper 'O' "R".data (by decide) (by decide) cond hOR
            rw [Option.isSome_iff_exists] at hsep
            obtain ⟨⟨i, len⟩, hs⟩ := hsep
            have hshort := splitSep_parts_short "OR".data cond i len hs p hp
            simp only [show ("OR".data.length = 2) from rfl] at hshort
            exact ih g p (by omega) (by omega)
          · simp only [Bool.not_eq_true] at hOR
            simp only [hOR, Bool.false_eq_true, if_false]

/-- **C6.** The claimed totality is false of the source: the `LIKE`
branch builds `new RegExp('^' + pattern + '$', 'i')` from the raw
comparison value, and that constructor can throw a reachable
`SyntaxError` with no `try`/`catch` on the path.  On the predicate
`x LIKE '('`: (1) the operator loop selects `LIKE` (no earlier
operator's pattern occurs anywhere in the text), capturing column `x`
and raw value `'('`; (2) quote stripping and the wildcard replaces
turn it into the constructor source `^($`; (3) that source leaves a
group unterminated, so the `RegExp` constructor throws; (4) the total
embedded evaluator nevertheless returns a boolean (`false`) — the
point where the model and the throwing source diverge. -/
theorem evaluateSimpleCondition_like_throws :
    opsList.find? (fun op => (opScanPos op.data "x LIKE '('".data).isSome) = some "LIKE" ∧
    (opScanPos "LIKE".data "x LIKE '('".data).map
      (fun m => (String.mk m.1, String.mk m.2)) = some ("x", "'('") ∧
    likeRegexSource (stripValue "'('".data) = "^($".data ∧
    regexGroupsOk "^($".data = false ∧
    evaluateSimpleCondition [("x", JSValue.vstr "a")] "x LIKE '('" = false := by
  refine ⟨by decide, by decide, by decide, by decide, by decide⟩

/-- **C2** (counterexample to the claim as stated). For the row
`{age: 15, city: 'NY'}` and the predicate `age > 18 AND city = 'NY'`,
the claim requires `false` (the `age > 18` conjunct fails), but
`evaluateSimpleCondition` returns `true`: the operator loop runs
*before* any AND splitting, the `=` pattern (tried before `>`) matches
at `city = 'NY'`, and that single comparison decides the result. -/
theorem evaluateSimpleCondition_and_counterexample :
    evaluateSimpleCondition [("age", JSValue.int 15), ("city", JSValue.vstr "NY")]
      "age > 18 AND city = 'NY'" = true := rfl

/-- **C2** (amended). The AND/OR splitting applies only to predicates in
which no comparison-operator pattern matches anywhere: for those, a
predicate containing a top-level case-insensitive ` AND ` evaluates
true iff every `\s+AND\s+`-separated part evaluates true, and otherwise
one containing ` OR ` evaluates true iff at least one part does.  (When
an operator pattern matches — as in the claim's example — the evaluator
instead returns that single comparison's result.) -/
theorem evaluateSimpleCondition_and_or_split (data : RowData) (cond : String)
    (hop : opEval data cond.data = none) :
    (containsSub " AND ".data (listUpper cond.data) = true →
      evaluateSimpleCondition data cond =
        (splitSep "AND".data cond.data).all (fun p => evaluateSimpleCondition data ⟨p⟩)) ∧
    (containsSub " AND ".data (listUpper cond.data) = false →
      containsSub " OR ".data (listUpper cond.data) = true →
      evaluateSimpleCondition data cond =
        (splitSep "OR".data cond.data).any (fun p => evaluateSimpleCondition data ⟨p⟩)) := by
  constructor
  · intro hAND
    unfold evaluateSimpleCondition
    rw [evalCondFuel_succ, hop]
    simp only [hAND, if_true]
    apply list_all_congr
    intro p hp
    have hsep : (findSepAux "AND".data cond.data).isSome = true :=
      findSep_of_containsUpper 'A' "ND".data (by decide) (by decide) cond.data hAND
    rw [Option.isSome_iff_exists] at hsep
    obtain ⟨⟨i, len⟩, hs⟩ := hsep
    have hshort := splitSep_parts_short "AND".data cond.data i len hs p hp
    simp only [show ("AND".data.length = 3) from rfl] at hshort
    exact evalCondFuel_congr data _ _ p (by omega) (by omega)
  · intro hAND hOR
    unfold evaluateSimpleCondition
    rw [evalCondFuel_succ, hop]
    simp only [hAND, hOR, Bool.false_eq_true, if_false, if_true]
    apply list_any_congr
    intro p hp
    have hsep : (findSepAux "OR".data cond.data).isSome = true :=
      findSep_of_containsUpper 'O' "R".data (by decide) (by decide) cond.data hOR
    rw [Option.isSome_iff_exists] at hsep
    obtain ⟨⟨i, len⟩, hs⟩ := hsep
    have hshort := splitSep_parts_short "OR".data cond.data i len hs p hp
    simp only [show ("OR".data.length = 2) from rfl] at hshort
    exact evalCondFuel_congr data _ _ p (by omega) (by omega)

/-- Witness: for `foo AND bar` (no operator pattern matches), the
evaluator equals the conjunction over the split parts. -/
theorem evaluateSimpleCondition_and_or_split_witness :
    evaluateSimpleCondition [] "foo AND bar" =
      (splitSep "AND".data "foo AND bar".data).all
        (fun p => evaluateSimpleCondition [] ⟨p⟩) :=
  (evaluateSimpleCondition_and_or_split [] "foo AND bar" (by rfl)).1 (by rfl)

/-- **C3** (counterexample to the claim as stated). For the non-SELECT
statement `INSERT INTO t (a) VALUES (1)`, the public visualize
operation's guard rejects with `new ValidationError('Query visualization
only supports SELECT statements')` — error code `VALIDATION_ERROR`,
HTTP 400, *without* the offending query attached — not with a
`SQLParseError` carrying code `SQL_PARSE_ERROR` and the query, as the
claim states. -/
theorem visualizeGate_insert_validation_error :
    visualizeGate "INSERT INTO t (a) VALUES (1)" =
      some (validationError "Query visualization only supports SELECT statements") ∧
    (validationError "Query visualization only supports SELECT statements").code =
      "VALIDATION_ERROR" ∧
    (validationError "Query visualization only supports SELECT statements").query = none ∧
    "VALIDATION_ERROR" ≠ "SQL_PARSE_ERROR" := by
  exact ⟨rfl, rfl, rfl, by decide⟩

/-- **C3** (amended). Every nonempty input whose detected statement type
is not `SELECT` is rejected by the guard of
`SQLExecutionService.visualizeQuery` before any parsing or simulation
work (the guard consults only `detectStatementType`; control never
reaches `SQLVisualizationService`), and the resulting error is a
`ValidationError` with code `VALIDATION_ERROR` and no query attached. -/
theorem visualizeGate_rejects_non_select (q : String)
    (hne : jsTrim q ≠ "") (hty : detectStatementType q ≠ "SELECT") :
    visualizeGate q =
      some (validationError "Query visualization only supports SELECT statements") := by
  unfold visualizeGate
  rw [if_neg hne, if_pos hty]

/-- Witness: a `DROP TABLE` statement is rejected by the guard. -/
theorem visualizeGate_rejects_non_select_witness :
    visualizeGate "DROP TABLE xs" =
      some (validationError "Query visualization only supports SELECT statements") :=
  visualizeGate_rejects_non_select "DROP TABLE xs" (by decide) (by decide)

/-! ## Statement splitter (C7) -/

theorem string_ne_empty_length {s : String} (h : s ≠ "") : 0 < s.length := by
  cases s with
  | mk data =>
    cases data with
    | nil => exact absurd rfl h
    | cons c cs => simp [String.length]

/-- The scan pushes exactly one fragment per top-level semicolon. -/
theorem semiScan_length (cs : List Char) : ∀ prev inString sChar cur,
    (semiScan prev inString sChar cur cs).1.length = semiCount prev inString sChar cs := by
  induction cs with
  | nil => intro prev i s cur; rfl
  | cons c rest ih =>
    intro prev i s cur
    simp only [semiScan, semiCount]
    by_cases h : c = ';' ∧ ¬ (quoteStep prev c i s).1 = true
    · rw [if_pos h, if_pos h]
      simp only [List.length_cons]
      rw [ih]
    · rw [if_neg h, if_neg h]
      exact ih _ _ _ _

/-- **C7** (counterexample to the claim as stated). The script `;` has
exactly one top-level unquoted semicolon and only empty content after
it, yet `splitStatements` returns zero statements, not one: the
fragment before the semicolon trims to the empty string and empty
fragments are dropped. -/
theorem splitStatements_empty_fragment_counterexample :
    splitStatements ";" = [] ∧ topLevelSemis ";" = 1 := ⟨rfl, rfl⟩

/-- **C7** (amended). For every script containing a semicolon, with
only empty or whitespace content after the last top-level semicolon
(the scan's trailing buffer trims to empty), and in which every
semicolon-delimited segment is nonempty after trimming,
`splitStatements` returns exactly `N` statements where `N` is the
number of top-level unquoted semicolons (semicolons inside string
literals, tracked by the quote scanner, are not split points). -/
theorem splitStatements_semicolon_count (sql : String)
    (hsemi : sql.data.contains ';' = true)
    (hfrag : ∀ f ∈ (semiScan none false ' ' [] sql.data).1, f ≠ "")
    (htrail : (semiScan none false ' ' [] sql.data).2 = "") :
    (splitStatements sql).length = topLevelSemis sql := by
  unfold splitStatements
  rw [if_pos hsemi]
  show (((semiScan none false ' ' [] sql.data).1 ++
      (if (semiScan none false ' ' [] sql.data).2 ≠ "" then
        [(semiScan none false ' ' [] sql.data).2] else [])).filter
          (fun s => s.length > 0)).length = _
  rw [htrail]
  simp only [ne_eq, not_true_eq_false, if_false, List.append_nil]
  rw [List.filter_eq_self.mpr ?_]
  · exact semiScan_length sql.data none false ' ' []
  · intro f hf
    simpa using string_ne_empty_length (hfrag f hf)

/-- Witness: a two-statement script whose second statement carries a
quoted semicolon; the split returns 2 = the top-level semicolon
count. -/
theorem splitStatements_semicolon_count_witness :
    (splitStatements "SELECT 1; INSERT INTO xs VALUES ('a;b') ;").length =
      topLevelSemis "SELECT 1; INSERT INTO xs VALUES ('a;b') ;" :=
  splitStatements_semicolon_count "SELECT 1; INSERT INTO xs VALUES ('a;b') ;"
    (by decide) (by decide) (by decide)

/-! ## Simulator row-state lemmas (C8, C10) -/

/-- Pointwise guarantee of the exclusion-respecting operations: an
already-excluded row is returned untouched, and a row included
afterwards was included before (no `false → true` flip). -/
def RowPreserved (a b : RowState) : Prop :=
  (a.included = false → b = a) ∧ (b.included = true → a.included = true)

/-- The number of excluded rows of a snapshot (the `excludedRows`
statistic of `createDataFlowStep`). -/
def countExc (rows : List RowState) : Nat :=
  (rows.filter (fun r => !r.included)).length

theorem rowPreserved_refl (r : RowState) : RowPreserved r r :=
  ⟨fun _ => rfl, fun h => h⟩

theorem forall₂_map_of_pointwise {P : RowState → RowState → Prop}
    (f : RowState → RowState) (hf : ∀ r, P r (f r)) :
    ∀ rows : List RowState, List.Forall₂ P rows (rows.map f) := by
  intro rows
  induction rows with
  | nil => exact List.Forall₂.nil
  | cons r rest ih => exact List.Forall₂.cons (hf r) ih

theorem applyWhereFilter_rowPreserved (rows : List RowState) (w : String) :
    List.Forall₂ RowPreserved rows (applyWhereFilter rows w) := by
  apply forall₂_map_of_pointwise
  intro r
  constructor
  · intro hexc
    simp [hexc]
  · intro hinc
    by_cases h : r.included = true
    · exact h
    · simp only [Bool.not_eq_true] at h
      simp [h] at hinc

theorem applyHavingFilter_rowPreserved (rows : List RowState) (h : String) :
    List.Forall₂ RowPreserved rows (applyHavingFilter rows h) := by
  apply forall₂_map_of_pointwise
  intro r
  constructor
  · intro hexc
    simp [hexc]
  · intro hinc
    by_cases hc : r.included = true
    · exact hc
    · simp only [Bool.not_eq_true] at hc
      simp [hc] at hinc

theorem applyDistinctGo_rowPreserved :
    ∀ (rows : List RowState) (seen : List String),
      List.Forall₂ RowPreserved rows (applyDistinctGo seen rows) := by
  intro rows
  induction rows with
  | nil => intro seen; exact List.Forall₂.nil
  | cons row rest ih =>
    intro seen
    unfold applyDistinctGo
    by_cases hexc : (!row.included) = true
    · rw [if_pos hexc]
      exact List.Forall₂.cons (rowPreserved_refl row) (ih seen)
    · rw [if_neg hexc]
      by_cases hseen : seen.contains (jsonStringify row.data) = true
      · rw [if_pos hseen]
        refine List.Forall₂.cons ⟨?_, ?_⟩ (ih seen)
        · intro hf
          simp [hf] at hexc
        · intro hinc
          simp at hinc
      · rw [if_neg hseen]
        exact List.Forall₂.cons (rowPreserved_refl row) (ih _)

theorem applyDistinct_rowPreserved (rows : List RowState) :
    List.Forall₂ RowPreserved rows (applyDistinct rows) :=
  applyDistinctGo_rowPreserved rows []

theorem applyLimitGo_rowPreserved (limit : Nat) :
    ∀ (rows : List RowState) (cnt : Nat),
      List.Forall₂ RowPreserved rows (applyLimitGo limit cnt rows) := by
  intro rows
  induction rows with
  | nil => intro cnt; exact List.Forall₂.nil
  | cons row rest ih =>
    intro cnt
    unfold applyLimitGo
    by_cases hexc : (!row.included) = true
    · rw [if_pos hexc]
      exact List.Forall₂.cons (rowPreserved_refl row) (ih cnt)
    · rw [if_neg hexc]
      by_cases hlim : cnt + 1 > limit
      · rw [if_pos hlim]
        refine List.Forall₂.cons ⟨?_, ?_⟩ (ih _)
        · intro hf
          simp [hf] at hexc
        · intro hinc
          simp at hinc
      · rw [if_neg hlim]
        exact List.Forall₂.cons (rowPreserved_refl row) (ih _)

theorem applyLimit_rowPreserved (rows : List RowState) (n : Nat) :
    List.Forall₂ RowPreserved rows (applyLimit rows n) :=
  applyLimitGo_rowPreserved n rows 0

theorem applyOffsetGo_rowPreserved (offset : Nat) :
    ∀ (rows : List RowState) (cnt : Nat),
      List.Forall₂ RowPreserved rows (applyOffsetGo offset cnt rows) := by
  intro rows
  induction rows with
  | nil => intro cnt; exact List.Forall₂.nil
  | cons row rest ih =>
    intro cnt
    unfold applyOffsetGo
    by_cases hexc : (!row.included) = true
    · rw [if_pos hexc]
      exact List.Forall₂.cons (rowPreserved_refl row) (ih cnt)
    · rw [if_neg hexc]
      by_cases hoff : cnt + 1 ≤ offset
      · rw [if_pos hoff]
        refine List.Forall₂.cons ⟨?_, ?_⟩ (ih _)
        · intro hf
          simp [hf] at hexc
        · intro hinc
          simp at hinc
      · rw [if_neg hoff]
        exact List.Forall₂.cons (rowPreserved_refl row) (ih _)

theorem applyOffset_rowPreserved (rows : List RowState) (n : Nat) :
    List.Forall₂ RowPreserved rows (applyOffset rows n) :=
  applyOffsetGo_rowPreserved n rows 0

theorem projectColumns_included (rows : List RowState) (cols : List String) :
    List.Forall₂ (fun a b => b.included = a.included) rows (projectColumns rows cols) := by
  apply forall₂_map_of_pointwise
  intro r
  rfl

theorem applyOrderBy_perm (rows : List RowState) (keys : List OrderKey) :
    (applyOrderBy rows keys).Perm rows :=
  List.mergeSort_perm rows _

/-- An exclusion-respecting transformation never decreases the number
of excluded rows. -/
theorem countExc_le_of_forall₂ {rows rows' : List RowState}
    (h : List.Forall₂ RowPreserved rows rows') : countExc rows ≤ countExc rows' := by
  induction h with
  | nil => exact Nat.le_refl 0
  | @cons a b l₁ l₂ hab htail ih =>
    unfold countExc at ih ⊢
    simp only [List.filter_cons]
    by_cases ha : a.included = true
    · by_cases hb : b.included = true
      · simp [ha, hb]
        exact ih
      · simp only [Bool.not_eq_true] at hb
        simp [ha, hb]
        omega
    · simp only [Bool.not_eq_true] at ha
      have hba : b = a := hab.1 ha
      simp [ha, hba]
      omega

/-- A projection preserves the number of excluded rows. -/
theorem countExc_eq_of_included_eq {rows rows' : List RowState}
    (h : List.Forall₂ (fun a b => b.included = a.included) rows rows') :
    countExc rows = countExc rows' := by
  induction h with
  | nil => rfl
  | @cons a b l₁ l₂ hab htail ih =>
    unfold countExc at ih ⊢
    simp only [List.filter_cons, hab]
    by_cases ha : a.included = true
    · simp [ha]
      exact ih
    · simp only [Bool.not_eq_true] at ha
      simp [ha]
      omega

/-- A permutation preserves the number of excluded rows. -/
theorem countExc_eq_of_perm {rows rows' : List RowState} (h : rows.Perm rows') :
    countExc rows = countExc rows' := by
  unfold countExc
  rw [← List.countP_eq_length_filter, ← List.countP_eq_length_filter]
  exact h.countP_eq _

theorem filter_length_partition (p : RowState → Bool) (l : List RowState) :
    (l.filter p).length + (l.filter (fun r => !p r)).length = l.length := by
  induction l with
  | nil => rfl
  | cons a l ih =>
    simp only [List.filter_cons]
    by_cases ha : p a = true
    · simp [ha]
      omega
    · simp only [Bool.not_eq_true] at ha
      simp [ha]
      omega

/-! ## Simulator pipeline invariants -/

/-- Every emitted step's statistics are internally consistent and its
snapshot has exactly as many rows as the current row list. -/
def SimInv (st : SimState) : Prop :=
  ∀ d ∈ st.dataFlow,
    d.stats.totalRows = d.rows.length ∧
    d.stats.totalRows = d.stats.includedRows + d.stats.excludedRows ∧
    d.rows.length = st.rows.length

theorem simInv_push (st : SimState) (es : ExecutionStep) (rows' : List RowState)
    (cols' : List String)
    (hlen : ∀ d ∈ st.dataFlow, d.rows.length = rows'.length)
    (h : SimInv st) :
    SimInv ⟨st.dataFlow ++ [createDataFlowStep es rows' cols'], rows', cols'⟩ := by
  intro d hd
  rcases List.mem_append.mp hd with hd | hd
  · obtain ⟨h1, h2, _⟩ := h d hd
    exact ⟨h1, h2, hlen d hd⟩
  · rw [List.mem_singleton] at hd
    subst hd
    exact ⟨rfl, (filter_length_partition (fun r => r.included) rows').symm, rfl⟩

theorem simInv_pushOp (st : SimState) (es : ExecutionStep) (rows' : List RowState)
    (cols' : List String) (hl : rows'.length = st.rows.length) (h : SimInv st) :
    SimInv ⟨st.dataFlow ++ [createDataFlowStep es rows' cols'], rows', cols'⟩ :=
  simInv_push st es rows' cols' (fun d hd => by rw [(h d hd).2.2, hl]) h

theorem simInv_simFrom (gtd : String → TableData) (primary : String)
    (steps : List ExecutionStep) : SimInv (simFrom gtd primary steps ⟨[], [], []⟩) := by
  unfold simFrom
  split
  · exact simInv_push _ _ _ _ (by simp) (by intro d hd; simp at hd)
  · intro d hd
    simp at hd

theorem simInv_simJoins (gtd : String → TableData) (steps : List ExecutionStep)
    {st : SimState} (h : SimInv st) : SimInv (simJoins gtd steps st) := by
  unfold simJoins
  generalize steps.filter (fun s => s.type = StepType.JOIN) = js
  induction js generalizing st with
  | nil => exact h
  | cons j js ih =>
    rw [List.foldl_cons]
    apply ih
    cases hj : joinTableScan j.clause.data with
    | some tname => exact simInv_pushOp st _ _ _ rfl h
    | none => exact h

theorem simInv_simWhere (pq : ParsedSelectQuery) (steps : List ExecutionStep)
    {st : SimState} (h : SimInv st) : SimInv (simWhere pq steps st) := by
  unfold simWhere
  split
  · split
    · exact h
    · exact simInv_pushOp st _ _ _
        ((applyWhereFilter_rowPreserved st.rows _).length_eq).symm h
  · exact h

theorem simInv_simGroupBy (pq : ParsedSelectQuery) (steps : List ExecutionStep)
    {st : SimState} (h : SimInv st) : SimInv (simGroupBy pq steps st) := by
  unfold simGroupBy
  split
  · exact simInv_pushOp st _ _ _ rfl h
  · exact h

theorem simInv_simHaving (pq : ParsedSelectQuery) (steps : List ExecutionStep)
    {st : SimState} (h : SimInv st) : SimInv (simHaving pq steps st) := by
  unfold simHaving
  split
  · split
    · exact h
    · exact simInv_pushOp st _ _ _
        ((applyHavingFilter_rowPreserved st.rows _).length_eq).symm h
  · exact h

theorem simInv_simSelect (pq : ParsedSelectQuery) (steps : List ExecutionStep)
    {st : SimState} (h : SimInv st) : SimInv (simSelect pq steps st) := by
  unfold simSelect
  split
  · exact simInv_pushOp st _ _ _
      ((projectColumns_included st.rows _).length_eq).symm h
  · exact h

theorem simInv_simDistinct (pq : ParsedSelectQuery) (steps : List ExecutionStep)
    {st : SimState} (h : SimInv st) : SimInv (simDistinct pq steps st) := by
  unfold simDistinct
  split
  · split
    · exact simInv_pushOp st _ _ _ ((applyDistinct_rowPreserved st.rows).length_eq).symm h
    · exact h
  · exact h

theorem simInv_simOrderBy (pq : ParsedSelectQuery) (steps : List ExecutionStep)
    {st : SimState} (h : SimInv st) : SimInv (simOrderBy pq steps st) := by
  unfold simOrderBy
  split
  · exact simInv_pushOp st _ _ _ ((applyOrderBy_perm st.rows _).length_eq) h
  · exact h

theorem simInv_simLimit (pq : ParsedSelectQuery) (steps : List ExecutionStep)
    {st : SimState} (h : SimInv st) : SimInv (simLimit pq steps st) := by
  unfold simLimit
  split
  · exact simInv_pushOp st _ _ _ ((applyLimit_rowPreserved st.rows _).length_eq).symm h
  · exact h

theorem simInv_simOffset (pq : ParsedSelectQuery) (steps : List ExecutionStep)
    {st : SimState} (h : SimInv st) : SimInv (simOffset pq steps st) := by
  unfold simOffset
  split
  · exact simInv_pushOp st _ _ _ ((applyOffset_rowPreserved st.rows _).length_eq).symm h
  · exact h

theorem simPipeline_simInv (gtd : String → TableData) (primary : String)
    (pq : ParsedSelectQuery) (steps : List ExecutionStep) :
    SimInv (simPipeline gtd primary pq steps) :=
  simInv_simOffset pq steps (simInv_simLimit pq steps (simInv_simOrderBy pq steps
    (simInv_simDistinct pq steps (simInv_simSelect pq steps (simInv_simHaving pq steps
      (simInv_simGroupBy pq steps (simInv_simWhere pq steps (simInv_simJoins gtd steps
        (simInv_simFrom gtd primary steps)))))))))

/-- The excluded-row counts of the emitted steps, with the current row
list's count appended. -/
def excChain (st : SimState) : List Nat :=
  st.dataFlow.map (fun d => d.stats.excludedRows) ++ [countExc st.rows]

theorem chain_push (st : SimState) (es : ExecutionStep) (rows' : List RowState)
    (cols' : List String) (hle : countExc st.rows ≤ countExc rows')
    (h : List.Chain' (· ≤ ·) (excChain st)) :
    List.Chain' (· ≤ ·)
      (excChain ⟨st.dataFlow ++ [createDataFlowStep es rows' cols'], rows', cols'⟩) := by
  unfold excChain at h ⊢
  rw [List.map_append]
  have hmap : List.map (fun d => d.stats.excludedRows) [createDataFlowStep es rows' cols'] =
      [countExc rows'] := rfl
  rw [hmap, List.append_assoc]
  obtain ⟨h1, _, h3⟩ := List.chain'_append.mp h
  refine List.chain'_append.mpr ⟨h1, ?_, ?_⟩
  · simp [List.chain'_cons]
  · intro x hx y hy
    have hxe := h3 x hx (countExc st.rows) (by simp)
    simp only [List.head?_append, List.head?_cons] at hy
    simp at hy
    omega

theorem chain_simFrom (gtd : String → TableData) (primary : String)
    (steps : List ExecutionStep) :
    List.Chain' (· ≤ ·) (excChain (simFrom gtd primary steps ⟨[], [], []⟩)) := by
  unfold simFrom
  split
  · exact chain_push ⟨[], [], []⟩ _ _ _ (Nat.zero_le _) (List.chain'_singleton _)
  · exact List.chain'_singleton _

theorem chain_simJoins (gtd : String → TableData) (steps : List ExecutionStep)
    {st : SimState} (h : List.Chain' (· ≤ ·) (excChain st)) :
    List.Chain' (· ≤ ·) (excChain (simJoins gtd steps st)) := by
  unfold simJoins
  generalize steps.filter (fun s => s.type = StepType.JOIN) = js
  induction js generalizing st with
  | nil => exact h
  | cons j js ih =>
    rw [List.foldl_cons]
    apply ih
    cases hj : joinTableScan j.clause.data with
    | some tname => exact chain_push st _ _ _ (Nat.le_refl _) h
    | none => exact h

theorem chain_simWhere (pq : ParsedSelectQuery) (steps : List ExecutionStep)
    {st : SimState} (h : List.Chain' (· ≤ ·) (excChain st)) :
    List.Chain' (· ≤ ·) (excChain (simWhere pq steps st)) := by
  unfold simWhere
  split
  · split
    · exact h
    · exact chain_push st _ _ _
        (countExc_le_of_forall₂ (applyWhereFilter_rowPreserved st.rows _)) h
  · exact h

theorem chain_simGroupBy (pq : ParsedSelectQuery) (steps : List ExecutionStep)
    {st : SimState} (h : List.Chain' (· ≤ ·) (excChain st)) :
    List.Chain' (· ≤ ·) (excChain (simGroupBy pq steps st)) := by
  unfold simGroupBy
  split
  · exact chain_push st _ _ _ (Nat.le_refl _) h
  · exact h

theorem chain_simHaving (pq : ParsedSelectQuery) (steps : List ExecutionStep)
    {st : SimState} (h : List.Chain' (· ≤ ·) (excChain st)) :
    List.Chain' (· ≤ ·) (excChain (simHaving pq steps st)) := by
  unfold simHaving
  split
  · split
    · exact h
    · exact chain_push st _ _ _
        (countExc_le_of_forall₂ (applyHavingFilter_rowPreserved st.rows _)) h
  · exact h

theorem chain_simSelect (pq : ParsedSelectQuery) (steps : List ExecutionStep)
    {st : SimState} (h : List.Chain' (· ≤ ·) (excChain st)) :
    List.Chain' (· ≤ ·) (excChain (simSelect pq steps st)) := by
  unfold simSelect
  split
  · exact chain_push st _ _ _
      (Nat.le_of_eq (countExc_eq_of_included_eq (projectColumns_included st.rows _))) h
  · exact h

theorem chain_simDistinct (pq : ParsedSelectQuery) (steps : List ExecutionStep)
    {st : SimState} (h : List.Chain' (· ≤ ·) (excChain st)) :
    List.Chain' (· ≤ ·) (excChain (simDistinct pq steps st)) := by
  unfold simDistinct
  split
  · split
    · exact chain_push st _ _ _
        (countExc_le_of_forall₂ (applyDistinct_rowPreserved st.rows)) h
    · exact h
  · exact h

theorem chain_simOrderBy (pq : ParsedSelectQuery) (steps : List ExecutionStep)
    {st : SimState} (h : List.Chain' (· ≤ ·) (excChain st)) :
    List.Chain' (· ≤ ·) (excChain (simOrderBy pq steps st)) := by
  unfold simOrderBy
  split
  · exact chain_push st _ _ _
      (Nat.le_of_eq (countExc_eq_of_perm (applyOrderBy_perm st.rows _)).symm) h
  · exact h

theorem chain_simLimit (pq : ParsedSelectQuery) (steps : List ExecutionStep)
    {st : SimState} (h : List.Chain' (· ≤ ·) (excChain st)) :
    List.Chain' (· ≤ ·) (excChain (simLimit pq steps st)) := by
  unfold simLimit
  split
  · exact chain_push st _ _ _
      (countExc_le_of_forall₂ (applyLimit_rowPreserved st.rows _)) h
  · exact h

theorem chain_simOffset (pq : ParsedSelectQuery) (steps : List ExecutionStep)
    {st : SimState} (h : List.Chain' (· ≤ ·) (excChain st)) :
    List.Chain' (· ≤ ·) (excChain (simOffset pq steps st)) := by
  unfold simOffset
  split
  · exact chain_push st _ _ _
      (countExc_le_of_forall₂ (applyOffset_rowPreserved st.rows _)) h
  · exact h

theorem simPipeline_chain (gtd : String → TableData) (primary : String)
    (pq : ParsedSelectQuery) (steps : List ExecutionStep) :
    List.Chain' (· ≤ ·) (excChain (simPipeline gtd primary pq steps)) :=
  chain_simOffset pq steps (chain_simLimit pq steps (chain_simOrderBy pq steps
    (chain_simDistinct pq steps (chain_simSelect pq steps (chain_simHaving pq steps
      (chain_simGroupBy pq steps (chain_simWhere pq steps (chain_simJoins gtd steps
        (chain_simFrom gtd primary steps)))))))))

/-- Extract the pipeline output from a successful `generateDataFlow`. -/
theorem generateDataFlow_ok {gtd : String → TableData} {pq : ParsedSelectQuery}
    {steps : List ExecutionStep} {out : List DataFlowStep}
    (h : generateDataFlow gtd pq steps = Except.ok out) :
    ∃ primary, out = (simPipeline gtd primary pq steps).dataFlow := by
  unfold generateDataFlow at h
  cases hf : pq.fromTables.head? with
  | none => rw [hf] at h; cases h
  | some f =>
    rw [hf] at h
    dsimp only at h
    split at h
    · cases h
    · exact ⟨f.table, ((Except.ok.injEq _ _).mp h).symm⟩

/-- **C10.** For every successful `generateDataFlow` run, each emitted
step's statistics are internally consistent — `totalRows` equals the
length of the step's `rows` snapshot and equals
`includedRows + excludedRows` — and `totalRows` is the same in every
step of the run (joins replace the rows but the witness pipeline keeps
the length; in the embedded pipeline each stage maps or permutes the
current row list, so the length is constant). -/
theorem generateDataFlow_stats_consistent (gtd : String → TableData)
    (pq : ParsedSelectQuery) (steps : List ExecutionStep) (out : List DataFlowStep)
    (h : generateDataFlow gtd pq steps = Except.ok out) :
    (∀ d ∈ out, d.stats.totalRows = d.rows.length ∧
      d.stats.totalRows = d.stats.includedRows + d.stats.excludedRows) ∧
    (∀ d1 ∈ out, ∀ d2 ∈ out, d1.stats.totalRows = d2.stats.totalRows) := by
  obtain ⟨primary, hout⟩ := generateDataFlow_ok h
  have hInv := simPipeline_simInv gtd primary pq steps
  subst hout
  constructor
  · intro d hd
    obtain ⟨h1, h2, _⟩ := hInv d hd
    exact ⟨h1, h2⟩
  · intro d1 h1 d2 h2
    obtain ⟨a1, _, c1⟩ := hInv d1 h1
    obtain ⟨a2, _, c2⟩ := hInv d2 h2
    rw [a1, a2, c1, c2]

theorem generateDataFlow_stats_consistent_witness :
    (w10out.headD dfDummy).stats.totalRows = (w10out.headD dfDummy).rows.length :=
  ((generateDataFlow_stats_consistent w10gtd w10pq w10steps w10out (by rfl)).1
    (w10out.headD dfDummy) (by decide)).1

/-- **C8.** Once excluded, never deleted or re-included: each
row-filtering operation of the simulator (`applyWhereFilter`,
`applyHavingFilter`, `applyDistinct`, `applyLimit`, `applyOffset`)
returns the row list pointwise with excluded rows untouched and no
`included` flag flipped from `false` to `true`; `projectColumns`
preserves each row's flag and `applyOrderBy` only permutes the rows.
Consequently, on every successful `generateDataFlow` run the emitted
steps' `excludedRows` counts are monotonically non-decreasing and every
step's snapshot has the same number of rows (no row is deleted). -/
theorem simulator_never_reincludes :
    (∀ (rows : List RowState) (w : String),
      List.Forall₂ RowPreserved rows (applyWhereFilter rows w)) ∧
    (∀ (rows : List RowState) (hv : String),
      List.Forall₂ RowPreserved rows (applyHavingFilter rows hv)) ∧
    (∀ rows : List RowState, List.Forall₂ RowPreserved rows (applyDistinct rows)) ∧
    (∀ (rows : List RowState) (n : Nat),
      List.Forall₂ RowPreserved rows (applyLimit rows n)) ∧
    (∀ (rows : List RowState) (n : Nat),
      List.Forall₂ RowPreserved rows (applyOffset rows n)) ∧
    (∀ (rows : List RowState) (cols : List String),
      List.Forall₂ (fun a b => b.included = a.included) rows (projectColumns rows cols)) ∧
    (∀ (rows : List RowState) (keys : List OrderKey),
      (applyOrderBy rows keys).Perm rows) ∧
    (∀ (gtd : String → TableData) (pq : ParsedSelectQuery) (steps : List ExecutionStep)
      (out : List DataFlowStep), generateDataFlow gtd pq steps = Except.ok out →
      List.Chain' (fun d1 d2 => d1.stats.excludedRows ≤ d2.stats.excludedRows) out ∧
      ∀ d1 ∈ out, ∀ d2 ∈ out, d1.rows.length = d2.rows.length) := by
  refine ⟨applyWhereFilter_rowPreserved, applyHavingFilter_rowPreserved,
    applyDistinct_rowPreserved, applyLimit_rowPreserved, applyOffset_rowPreserved,
    projectColumns_included, applyOrderBy_perm, ?_⟩
  intro gtd pq steps out h
  obtain ⟨primary, hout⟩ := generateDataFlow_ok h
  have hch := simPipeline_chain gtd primary pq steps
  have hInv := simPipeline_simInv gtd primary pq steps
  subst hout
  constructor
  · unfold excChain at hch
    obtain ⟨h1, _, _⟩ := List.chain'_append.mp hch
    rw [List.chain'_map] at h1
    exact h1
  · intro d1 hm1 d2 hm2
    obtain ⟨_, _, c1⟩ := hInv d1 hm1
    obtain ⟨_, _, c2⟩ := hInv d2 hm2
    rw [c1, c2]

theorem simulator_never_reincludes_witness :
    List.Chain' (fun d1 d2 => d1.stats.excludedRows ≤ d2.stats.excludedRows) w10out :=
  (simulator_never_reincludes.2.2.2.2.2.2.2 w10gtd w10pq w10steps w10out (by rfl)).1

/-! ## `parseCreateTable` claims -/

/-- **C4.** On the claim's own round-trip input the parsed `columns`
list has 2 entries, not 3: the columns block is extracted with
`/\(([^)]+)\)/`, whose capture stops at the *first* `)` — inside
`VARCHAR(255)` — before `splitColumnDefinitions`' depth counter ever
runs, so `name`'s type is the truncated `VARCHAR(255` and `dept_id`
(together with the `FOREIGN KEY` constraint line) is cut off
entirely. -/
theorem parseCreateTable_truncates_nested_parens :
    (parseCreateTable ("CREATE TABLE employees (id INT PRIMARY KEY AUTO_INCREMENT, " ++
        "name VARCHAR(255) NOT NULL, dept_id INT, " ++
        "FOREIGN KEY (dept_id) REFERENCES depts(id))")).map
      (fun p => p.columns.map (fun c => (c.name, c.type))) =
    Except.ok [("id", "INT"), ("name", "VARCHAR(255")] := by rfl

/-- An inline `REFERENCES` without a `(column)` part sets
`isForeignKey` (a substring test) while the `references` extraction
regex fails, so the claimed invariant `isForeignKey ⇒ references`
does not hold. -/
theorem parseCreateTable_foreignKey_counterexample :
    (parseCreateTable "CREATE TABLE t (a INT REFERENCES depts)").map
      (fun p => p.columns.map (fun c => (c.isForeignKey, c.references))) =
    Except.ok [(true, (none : Option (String × String)))] := by rfl

/-- If a toUpper-fixed literal matches case-insensitively at the head
of the input, it is an exact prefix of the uppercased input. -/
theorem matchLitCI_upper_prefix :
    ∀ (w cs r : List Char), (∀ ch ∈ w, ch.toUpper = ch) →
      matchLitCI w cs = some r →
      List.isPrefixOf w (listUpper cs) = true := by
  intro w
  induction w with
  | nil => intro cs r _ _; simp [List.isPrefixOf]
  | cons w0 w' ih =>
    intro cs r hfix hm
    cases cs with
    | nil => simp [matchLitCI] at hm
    | cons c cs' =>
      unfold matchLitCI at hm
      by_cases hc : ciEq w0 c = true
      · rw [if_pos hc] at hm
        unfold ciEq at hc
        rw [hfix w0 (by simp)] at hc
        simp only [decide_eq_true_eq] at hc
        simp only [listUpper, List.map_cons, List.isPrefixOf, Bool.and_eq_true, beq_iff_eq]
        exact ⟨hc, ih cs' r (fun ch hch => hfix ch (by simp [hch])) hm⟩
      · rw [if_neg hc] at hm
        cases hm

/-- A successful `refScan` implies the uppercased text contains the
substring `REFERENCES`. -/
theorem refScan_contains :
    ∀ (cs : List Char) (r : String × String), refScan cs = some r →
      containsSub "REFERENCES".data (listUpper cs) = true := by
  intro cs
  induction cs with
  | nil => intro r h; simp [refScan] at h
  | cons c cs' ih =>
    intro r h
    have hstep : containsSub "REFERENCES".data (listUpper (c :: cs')) =
        (List.isPrefixOf "REFERENCES".data (c.toUpper :: listUpper cs') ||
          containsSub "REFERENCES".data (listUpper cs')) := rfl
    unfold refScan at h
    cases ha : refAttempt (c :: cs') with
    | some r2 =>
      have hm : ∃ rest, matchLitCI "REFERENCES".data (c :: cs') = some rest := by
        unfold refAttempt at ha
        cases hm2 : matchLitCI "REFERENCES".data (c :: cs') with
        | none => rw [hm2] at ha; cases ha
        | some rest => exact ⟨rest, rfl⟩
      obtain ⟨rest, hm⟩ := hm
      have hpre := matchLitCI_upper_prefix "REFERENCES".data (c :: cs') rest (by decide) hm
      rw [hstep, Bool.or_eq_true]
      exact Or.inl hpre
    | none =>
      rw [ha] at h
      dsimp only at h
      rw [hstep, Bool.or_eq_true]
      exact Or.inr (ih r h)

/-- The parsed column's flag and reference fields are exactly the
substring test and the `REFERENCES` regex scan of the definition. -/
theorem parseColumnDefinition_fields (d : List Char) (col : ColumnDefinition)
    (h : parseColumnDefinition d = some col) :
    col.isForeignKey = containsSub "REFERENCES".data (listUpper d) ∧
    col.references = refScan d := by
  unfold parseColumnDefinition at h
  dsimp only at h
  split at h
  · cases h
  · split at h
    · cases h
    · cases h
      exact ⟨rfl, rfl⟩

/-- Every member of the column-definition fold was produced by a
successful `parseColumnDefinition`. -/
theorem mem_foldr_colDefStep :
    ∀ (L : List (List Char)) (col : ColumnDefinition),
      col ∈ L.foldr colDefStep [] → ∃ d, parseColumnDefinition d = some col := by
  intro L
  induction L with
  | nil => intro col h; simp at h
  | cons defn rest ih =>
    intro col h
    simp only [List.foldr] at h
    unfold colDefStep at h
    by_cases hc : isTableConstraint (listTrim defn) = true
    · rw [if_pos hc] at h; exact ih col h
    · rw [if_neg hc] at h
      cases hp : parseColumnDefinition (listTrim defn) with
      | none => rw [hp] at h; exact ih col h
      | some c =>
        rw [hp] at h
        rcases List.mem_cons.mp h with h | h
        · exact ⟨listTrim defn, by rw [hp, h]⟩
        · exact ih col h

/-- **C9 (amended).** The invariant that holds in the code is the
converse of the claimed one: whenever a parsed column carries a
`references` pair, its `isForeignKey` flag is set — `references` is
populated only when the full `REFERENCES table(column)` regex matches,
which forces the substring `REFERENCES` to occur in the (uppercased)
definition, which is exactly the `isForeignKey` test.  This holds at
the `parseColumnDefinition` level (first conjunct) and lifts to every
column returned by `parseCreateTable` (second conjunct; there it is in
fact vacuous, because the columns-block capture of `parseCreateTable`
stops at the first `)` and so can never contain a complete
`REFERENCES table(column)`).  The claimed direction
`isForeignKey ⇒ references` fails — see the counterexample. -/
theorem parseCreateTable_references_imp_foreignKey :
    (∀ (d : List Char) (col : ColumnDefinition), parseColumnDefinition d = some col →
      col.references.isSome = true → col.isForeignKey = true) ∧
    (∀ (query : String) (p : ParsedCreateTableQuery),
      parseCreateTable query = Except.ok p →
      ∀ col ∈ p.columns, col.references.isSome = true → col.isForeignKey = true) := by
  have hcol : ∀ (d : List Char) (col : ColumnDefinition),
      parseColumnDefinition d = some col →
      col.references.isSome = true → col.isForeignKey = true := by
    intro d col h href
    obtain ⟨hfk, hrf⟩ := parseColumnDefinition_fields d col h
    rw [hrf] at href
    cases hr : refScan d with
    | none => rw [hr] at href; cases href
    | some r =>
      rw [hfk]
      exact refScan_contains d r hr
  refine ⟨hcol, ?_⟩
  intro query p h col hmem href
  have hcols : ∃ s, p.columns = parseColumnDefinitions s := by
    unfold parseCreateTable at h
    dsimp only at h
    cases h1 : tableNameScan (normalizeQuery query).data with
    | none => rw [h1] at h; cases h
    | some tn =>
      rw [h1] at h
      dsimp only at h
      cases h2 : columnsBlockScan (normalizeQuery query).data with
      | none => rw [h2] at h; cases h
      | some cb =>
        rw [h2] at h
        dsimp only at h
        cases h
        exact ⟨cb, rfl⟩
  obtain ⟨s, hs⟩ := hcols
  rw [hs] at hmem
  obtain ⟨d, hd⟩ := mem_foldr_colDefStep _ col hmem
  exact hcol d col hd href

theorem parseCreateTable_references_imp_foreignKey_witness :
    c9colD.isForeignKey = true :=
  parseCreateTable_references_imp_foreignKey.1 "b INT REFERENCES d(x)".data c9colD
    (by decide) (by decide)

end SQLViz
